import Mathlib

/-!
A shallow embedding of the core of the rust-os kernel (a 32-bit RISC-V
teaching kernel), verified against its natural-language specification.

The model follows the Rust sources:
  - src/alloc/page.rs    physical page allocator (bump pool + freed list)
  - src/alloc/raw.rs     size-classed allocator
  - src/page_table.rs    Sv32 page tables, user-memory guards
  - src/ext2.rs          ext2 reader
  - src/virtio.rs        virtio split-ring driver
  - src/resource_desc.rs resource descriptions (file / console vtables)
  - src/syscall.rs       syscall dispatcher

Machine integers are modelled as Nat with explicit reduction mod 2^32 where
the Rust code performs wrapping arithmetic.  Fallible code returns an
explicit result type; panics (assert, unwrap, todo) are a distinguished
result constructor.
-/

set_option maxRecDepth 8192

namespace RustOS

/-- The size of a single memory page (src/page_table.rs PAGE_SIZE). -/
def PAGE_SIZE : Nat := 4096

/-- One more than the largest 32-bit value; wrapping arithmetic reduces mod this. -/
def U32 : Nat := 2 ^ 32

/-- Error kinds exposed by the kernel (shared/src/lib.rs ErrorKind), plus the
NotPermitted kind which the dispatcher in src/syscall.rs uses for rejected
user pointers. -/
inductive ErrorKind where
  | OutOfMemory
  | Io
  | Unsupported
  | NotFound
  | InvalidFormat
  | LimitReached
  | NotPermitted
  deriving Repr, DecidableEq

/-- Wire codes of the error kinds (shared/src/lib.rs, repr u32).  The numeric
value of NotPermitted is not fixed by the sources under src/ and no theorem
below depends on it. -/
def ErrorKind.code : ErrorKind → Nat
  | .OutOfMemory => 1
  | .Io => 2
  | .Unsupported => 3
  | .NotFound => 4
  | .InvalidFormat => 5
  | .LimitReached => 6
  | .NotPermitted => 7

/-- Result of running a piece of kernel code: a value, a recoverable error, or
a kernel panic (failed assert, unwrap, or todo). -/
inductive KRes (α : Type) where
  | ok (a : α)
  | err (e : ErrorKind)
  | panicked
  deriving Repr, DecidableEq

/-! ## Page allocator (src/alloc/page.rs) -/

/-- Linker-provided layout of the bump pool: allocations come from the region
from freeRam (inclusive) to freeRamEnd (exclusive). -/
structure MemLayout where
  freeRam : Nat
  freeRamEnd : Nat
  deriving Repr, DecidableEq

/-- State of the page allocator: the bump cursor NEXT_PTR and the freed-page
list FREED_PAGES, each node recorded as (base address, number of pages). -/
structure PageAllocSt where
  cursor : Nat
  freed : List (Nat × Nat)
  deriving Repr, DecidableEq

/-- FreePageList::try_pop walks the freed list; a node whose num_pages equals
the request hits the todo (a panic), and otherwise the walk falls off the end
of the list and returns None.  So the only observable question is whether an
exact-size node exists. -/
def freedHasExact (freed : List (Nat × Nat)) (n : Nat) : Bool :=
  freed.any (fun node => node.2 = n)

/-- alloc_pages: first consult the freed list (an exact-size hit reaches the
todo and panics), then bump NEXT_PTR.  The byte count is computed with
checked_mul (panic on 32-bit overflow) and added to the cursor with
wrapping_byte_add (reduction mod 2^32); the result is compared against
freeRamEnd, failing with OutOfMemory when it lies past the end.  On a single
hart the compare-exchange always succeeds on the first try. -/
def allocPages (L : MemLayout) (s : PageAllocSt) (numPages : Nat) :
    KRes (Nat × PageAllocSt) :=
  if freedHasExact s.freed numPages then .panicked
  else if PAGE_SIZE * numPages ≥ U32 then .panicked
  else if (s.cursor + PAGE_SIZE * numPages) % U32 > L.freeRamEnd then .err .OutOfMemory
  else .ok (s.cursor, ⟨(s.cursor + PAGE_SIZE * numPages) % U32, s.freed⟩)

/-- free_pages: assert the pointer is page-aligned, refuse a null pointer
(NonNull::new expect), then push a FreePageListNode onto the freed list. -/
def freePages (s : PageAllocSt) (ptr numPages : Nat) : KRes PageAllocSt :=
  if ptr % PAGE_SIZE = 0 then
    if ptr = 0 then .panicked
    else .ok ⟨s.cursor, (ptr, numPages) :: s.freed⟩
  else .panicked

/-- A request stream against the page allocator. -/
inductive AllocOp where
  | alloc (n : Nat)
  | free (ptr n : Nat)
  deriving Repr, DecidableEq

/-- Run a list of allocator requests from a starting state, collecting the
(pointer, numPages) pair of every successful allocation.  A panic halts the
kernel, so the rest of the stream is discarded; a recoverable OutOfMemory
leaves the state unchanged and the stream continues. -/
def runAllocOps (L : MemLayout) : List AllocOp → PageAllocSt →
    PageAllocSt × List (Nat × Nat)
  | [], s => (s, [])
  | .alloc n :: ops, s =>
    match allocPages L s n with
    | .ok (p, s') =>
      let r := runAllocOps L ops s'
      (r.1, (p, n) :: r.2)
    | .err _ => runAllocOps L ops s
    | .panicked => (s, [])
  | .free ptr n :: ops, s =>
    match freePages s ptr n with
    | .ok s' => runAllocOps L ops s'
    | _ => (s, [])

/-- Well-formed allocator state: the cursor is page-aligned and inside the
bump pool. -/
def GoodAlloc (L : MemLayout) (s : PageAllocSt) : Prop :=
  PAGE_SIZE ∣ s.cursor ∧ L.freeRam ≤ s.cursor ∧ s.cursor ≤ L.freeRamEnd

/-! ## Sv32 page tables (src/page_table.rs) -/

/-- Flag bit for a valid entry (PageTableFlags::VALID, bit 0). -/
def FLAG_VALID : Nat := 1

/-- Flag bit for a readable page (bit 1). -/
def FLAG_READABLE : Nat := 2

/-- Flag bit for a writable page (bit 2). -/
def FLAG_WRITABLE : Nat := 4

/-- Flag bit for an executable page (bit 3). -/
def FLAG_EXECUTABLE : Nat := 8

/-- Flag bit for a user-accessible page (bit 4). -/
def FLAG_USER : Nat := 16

/-- PageTableEntry::FLAGS_MASK. -/
def FLAGS_MASK : Nat := 0x1f

/-- PageTableEntry::ADDR_SHIFT. -/
def ADDR_SHIFT : Nat := 10

/-- PageTableEntry::ADDR_MASK: the 32-bit value of (!0) shifted left by 10. -/
def ADDR_MASK : Nat := U32 - 2 ^ 10

/-- bitset contains (bitset/src/lib.rs): every bit of other is set in f. -/
def bitsContains (f other : Nat) : Bool := f &&& other = other

/-- bitset contains_any exactly as written in bitset/src/lib.rs: the source
computes (self.0 | other.0) != 0 with a bitwise or, so the result is true
whenever other is nonzero, regardless of f. -/
def bitsContainsAny (f other : Nat) : Bool := f ||| other ≠ 0

/-- PageTableEntry::from_addr_flags.  The shift is 32-bit arithmetic. -/
def fromAddrFlags (addr flags : Nat) : Nat :=
  (((addr / PAGE_SIZE) <<< ADDR_SHIFT) % U32) &&& ADDR_MASK ||| (flags &&& FLAGS_MASK)

/-- PageTableEntry::physical_addr. -/
def entryPhysicalAddr (e : Nat) : Nat := ((e &&& ADDR_MASK) >>> ADDR_SHIFT) * PAGE_SIZE

/-- PageTableEntry::flags (the From conversion masks with FLAGS_MASK). -/
def entryFlags (e : Nat) : Nat := e &&& FLAGS_MASK

/-- Physical memory holding page tables, as a map from a table base address
and an entry index to the raw entry stored there. -/
def PTHeap : Type := Nat → Nat → Nat

/-- Store one entry of one table. -/
def PTHeap.write (h : PTHeap) (base idx v : Nat) : PTHeap :=
  fun b i => if b = base ∧ i = idx then v else h b i

/-- Overwrite a whole table with empty entries (PageTable of EMPTY entries). -/
def PTHeap.zeroTable (h : PTHeap) (base : Nat) : PTHeap :=
  fun b i => if b = base then 0 else h b i

/-- The first-level index of a virtual address (bits 22 to 31). -/
def vpn1Of (vaddr : Nat) : Nat := (vaddr >>> 22) &&& 0x3ff

/-- The second-level index of a virtual address (bits 12 to 21). -/
def vpn0Of (vaddr : Nat) : Nat := (vaddr >>> 12) &&& 0x3ff

/-- Result of entry_for_vaddr: no active table, an invalid first-level entry,
the todo branch for large pages, or the second-level entry. -/
inductive WalkRes where
  | noTable
  | unmapped
  | largePage
  | entry (e : Nat)
  deriving Repr, DecidableEq

/-- entry_for_vaddr from src/page_table.rs, walking the given root table. -/
def entryForVaddr (h : PTHeap) (root : Option Nat) (vaddr : Nat) : WalkRes :=
  match root with
  | none => .noTable
  | some rt =>
    if ¬ bitsContains (entryFlags (h rt (vpn1Of vaddr))) FLAG_VALID then .unmapped
    else if ¬ bitsContainsAny (entryFlags (h rt (vpn1Of vaddr)))
        (FLAG_READABLE ||| FLAG_WRITABLE ||| FLAG_EXECUTABLE ||| FLAG_USER) then
      .largePage
    else .entry (h (entryPhysicalAddr (h rt (vpn1Of vaddr))) (vpn0Of vaddr))

/-- The list of page base addresses visited by check_range_has_flags: from the
requested address rounded down to a page boundary, stepping a page at a time
while below the end of the range. -/
def pagesInRange (addr len : Nat) : List Nat :=
  (List.range ((addr + len - addr / PAGE_SIZE * PAGE_SIZE + (PAGE_SIZE - 1)) / PAGE_SIZE)).map
    (fun k => addr / PAGE_SIZE * PAGE_SIZE + PAGE_SIZE * k)

/-- check_range_has_flags: every visited page must resolve through the walk to
an entry containing all the requested flags.  A missing walk result is a
failure; the large-page branch is unreachable (entryForVaddr_ne_largePage). -/
def checkRangeHasFlags (h : PTHeap) (root : Option Nat) (addr len flags : Nat) : Bool :=
  (pagesInRange addr len).all fun p =>
    match entryForVaddr h root p with
    | .entry e => bitsContains (entryFlags e) flags
    | _ => false

/-- UserMemRef::for_region: demand Valid, UserAccessible and Readable on the
whole range, returning the range itself as the guarded slice. -/
def UserMemRef.forRegion (h : PTHeap) (root : Option Nat) (addr len : Nat) :
    Option (Nat × Nat) :=
  if checkRangeHasFlags h root addr len
      (FLAG_VALID ||| FLAG_USER ||| FLAG_READABLE) then
    some (addr, len)
  else none

/-- UserMemMut::for_region: additionally demand Writable. -/
def UserMemMut.forRegion (h : PTHeap) (root : Option Nat) (addr len : Nat) :
    Option (Nat × Nat) :=
  if checkRangeHasFlags h root addr len
      (FLAG_VALID ||| FLAG_USER ||| FLAG_READABLE ||| FLAG_WRITABLE) then
    some (addr, len)
  else none

/-- Modelled from the spec: UserMemMutOpaque::for_region is referenced by
src/syscall.rs but its definition is not under src/.  Per the specification
a mutable user-memory guard is constructed only when check_range_has_flags
proves the region Valid, UserAccessible, Readable and Writable, and the
construction returns None on validation failure. -/
def userMemMutOpaqueForRegion (h : PTHeap) (root : Option Nat) (addr len : Nat) :
    Option (Nat × Nat) :=
  if checkRangeHasFlags h root addr len
      (FLAG_VALID ||| FLAG_USER ||| FLAG_READABLE ||| FLAG_WRITABLE) then
    some (addr, len)
  else none

/-- The second half of map_page, shared by both the fresh-table and the
existing-table paths: assert the leaf is currently invalid, then store the
new entry with the Valid flag added. -/
def mapPageLeaf (a : PageAllocSt) (h : PTHeap) (table0 vaddr paddr flags : Nat) :
    KRes (PageAllocSt × PTHeap) :=
  if bitsContains (entryFlags (h table0 (vpn0Of vaddr))) FLAG_VALID then .panicked
  else .ok (a, h.write table0 (vpn0Of vaddr) (fromAddrFlags paddr (flags ||| FLAG_VALID)))

/-- map_page from src/page_table.rs: assert both addresses page-aligned;
if the first-level entry is invalid, allocate a page for an intermediate
table, point the first-level entry at it and clear it; then re-read the
first-level entry, assert the leaf under it is invalid, and write the leaf. -/
def mapPage (L : MemLayout) (a : PageAllocSt) (h : PTHeap)
    (rootAddr vaddr paddr flags : Nat) : KRes (PageAllocSt × PTHeap) :=
  if ¬ paddr % PAGE_SIZE = 0 then .panicked
  else if ¬ vaddr % PAGE_SIZE = 0 then .panicked
  else if ¬ bitsContains (entryFlags (h rootAddr (vpn1Of vaddr))) FLAG_VALID then
    match allocPages L a 1 with
    | .ok (newPage, a₁) =>
      let h₁ :=
        (h.write rootAddr (vpn1Of vaddr) (fromAddrFlags newPage FLAG_VALID)).zeroTable newPage
      mapPageLeaf a₁ h₁ (entryPhysicalAddr (h₁ rootAddr (vpn1Of vaddr))) vaddr paddr flags
    | .err e => .err e
    | .panicked => .panicked
  else
    mapPageLeaf a h (entryPhysicalAddr (h rootAddr (vpn1Of vaddr))) vaddr paddr flags

/-- A page, given by its base address, whose bytes intersect the given byte
range (the intersection must be nonempty). -/
def pageOverlaps (p addr len : Nat) : Prop :=
  PAGE_SIZE ∣ p ∧ ∃ x, p ≤ x ∧ x < p + PAGE_SIZE ∧ addr ≤ x ∧ x < addr + len

/-- The walk for page p reaches an entry containing all the given flags. -/
def walkHasFlags (h : PTHeap) (root : Option Nat) (p flags : Nat) : Prop :=
  ∃ e, entryForVaddr h root p = .entry e ∧ bitsContains (entryFlags e) flags = true

/-- A concrete two-level table for exercising user_mem_for_region_iff: the
root at 0x1000 points entry 4 at a table 0x2000 whose entry 0 maps physical
0x5000 with Valid, Readable, Writable and UserAccessible. -/
def demoHeap : PTHeap := fun b i =>
  if b = 0x1000 ∧ i = 4 then fromAddrFlags 0x2000 FLAG_VALID
  else if b = 0x2000 ∧ i = 0 then
    fromAddrFlags 0x5000 (FLAG_VALID ||| FLAG_READABLE ||| FLAG_WRITABLE ||| FLAG_USER)
  else 0

/-! ## Ext2 reader (src/ext2.rs)

The block device is modelled as a total map from sector numbers and byte
indices to byte values (the virtio driver busy-waits until the device has
completed, and the block read path never consults the misread used element,
so sector reads are reliable).  Reads reduce values mod 256 because the
hardware returns bytes. -/

/-- The disk: sector number and byte offset within the sector to byte. -/
def Disk : Type := Nat → Nat → Nat

/-- One byte of one sector as the driver sees it. -/
def readSectorByte (d : Disk) (sec i : Nat) : Nat := d sec i % 256

/-- The superblock cache filled by Ext2::new from disk sectors 2 and 3. -/
def superblockByte (d : Disk) (i : Nat) : Nat :=
  if i < 512 then readSectorByte d 2 i else readSectorByte d 3 (i - 512)

/-- Little-endian u16 field of the superblock. -/
def sbLe16 (d : Disk) (off : Nat) : Nat :=
  superblockByte d off + 256 * superblockByte d (off + 1)

/-- Little-endian u32 field of the superblock. -/
def sbLe32 (d : Disk) (off : Nat) : Nat :=
  superblockByte d off + 256 * superblockByte d (off + 1) +
    65536 * superblockByte d (off + 2) + 16777216 * superblockByte d (off + 3)

/-- Superblock field block_size_raw (offset 24 in the C layout). -/
def blockSizeRaw (d : Disk) : Nat := sbLe32 d 24

/-- Superblock field blocks_per_group (offset 32). -/
def blocksPerGroup (d : Disk) : Nat := sbLe32 d 32

/-- Superblock field inodes_per_group (offset 40). -/
def inodesPerGroup (d : Disk) : Nat := sbLe32 d 40

/-- Superblock field block_count (offset 4). -/
def blockCount (d : Disk) : Nat := sbLe32 d 4

/-- Superblock field inode_count (offset 0). -/
def inodeCount (d : Disk) : Nat := sbLe32 d 0

/-- Superblock field major_version (offset 76). -/
def majorVersion (d : Disk) : Nat := sbLe32 d 76

/-- Superblock field inode_size (offset 88, u16). -/
def inodeSize (d : Disk) : Nat := sbLe16 d 88

/-- Superblock::block_size: 1024 shifted left by block_size_raw. -/
def blockSize (d : Disk) : Nat := 1024 <<< blockSizeRaw d

/-- Superblock::sectors_per_block. -/
def sectorsPerBlock (d : Disk) : Nat := blockSize d / 512

/-- Superblock::inodes_per_block. -/
def inodesPerBlock (d : Disk) : Nat := blockSize d / inodeSize d

/-- Superblock::num_block_groups (div_ceil of block count by group size). -/
def numBlockGroups (d : Disk) : Nat :=
  (blockCount d + blocksPerGroup d - 1) / blocksPerGroup d

/-- Little-endian u32 read anywhere on a sector. -/
def secLe32 (d : Disk) (sec off : Nat) : Nat :=
  readSectorByte d sec off + 256 * readSectorByte d sec (off + 1) +
    65536 * readSectorByte d sec (off + 2) + 16777216 * readSectorByte d sec (off + 3)

/-- Little-endian u16 read anywhere on a sector. -/
def secLe16 (d : Disk) (sec off : Nat) : Nat :=
  readSectorByte d sec off + 256 * readSectorByte d sec (off + 1)

/-- Ext2::block_group_descriptor, field inode_table_addr (offset 8 of the
32-byte record).  The sector arithmetic mirrors the source, including its use
of DESCS_PER_SECTOR (16) as the scale factor in the sector offset. -/
def bgdInodeTableAddr (d : Disk) (g : Nat) : Nat :=
  secLe32 d (2 + blockSize d / 512 + g * 16 / 512) (g % 16 * 32 + 8)

/-- The fields of an on-disk inode that the kernel reads. -/
structure InodeRec where
  typeAndPermissions : Nat
  sizeLower : Nat
  sizeUpper : Nat
  directBlockPointers : List Nat
  deriving Repr, DecidableEq

/-- Inode::file_size: size_lower plus size_upper shifted up 32 bits. -/
def InodeRec.fileSize (ino : InodeRec) : Nat :=
  ino.sizeLower + ino.sizeUpper * U32

/-- The 4-bit inode type from the type_and_permissions field. -/
def InodeRec.typeNum (ino : InodeRec) : Nat :=
  (ino.typeAndPermissions >>> 12) &&& 0xf

/-- Ext2::inode: locate the group, its inode table, the sector holding the
inode, and parse the record.  Division by a zero inodes_per_group, a zero
inode_size or a zero inodes_per_block is a Rust panic, as is the assert that
the group number is within the group count. -/
def inodeAt (d : Disk) (n : Nat) : KRes InodeRec :=
  if inodesPerGroup d = 0 then .panicked
  else if blocksPerGroup d = 0 then .panicked
  else if inodeSize d = 0 then .panicked
  else if inodesPerBlock d = 0 then .panicked
  else
    let g := (n - 1) / inodesPerGroup d
    if ¬ g < numBlockGroups d then .panicked
    else
      let inodeBlock := bgdInodeTableAddr d g + (n - 1) % inodesPerGroup d / inodesPerBlock d
      let inodesPerSector := 512 / inodeSize d
      if inodesPerSector = 0 then .panicked
      else
        let sec := inodeBlock * (2 <<< blockSizeRaw d)
          + (n - 1) % inodesPerBlock d / inodesPerSector
        let idx := (n - 1) % inodesPerSector * inodeSize d
        .ok
          { typeAndPermissions := secLe16 d sec idx
            sizeLower := secLe32 d sec (idx + 4)
            sizeUpper := secLe32 d sec (idx + 108)
            directBlockPointers := (List.range 12).map fun i => secLe32 d sec (idx + 40 + 4 * i) }

/-- Ext2::read_inode_sector: assert the inode is a regular file (the inode
type accessor itself panics on an unknown pattern), map the sector through
the direct block pointers (indirect pointers are Unsupported), and read. -/
def readInodeSector (d : Disk) (inodeNum sectorNum : Nat) : KRes (Nat → Nat) :=
  match inodeAt d inodeNum with
  | .err e => .err e
  | .panicked => .panicked
  | .ok ino =>
    if ¬ (ino.typeNum = 1 ∨ ino.typeNum = 2 ∨ ino.typeNum = 4 ∨ ino.typeNum = 6 ∨
        ino.typeNum = 8 ∨ ino.typeNum = 10 ∨ ino.typeNum = 12) then .panicked
    else if ¬ ino.typeNum = 8 then .panicked
    else
      let blockIdx := sectorNum / sectorsPerBlock d
      match (ino.directBlockPointers).get? blockIdx with
      | none => .err .Unsupported
      | some blockNum =>
        .ok fun i =>
          readSectorByte d (blockNum * sectorsPerBlock d + sectorNum % sectorsPerBlock d) i

/-- One more than the largest 64-bit value, for the u64 file arithmetic. -/
def U64 : Nat := 2 ^ 64

/-- The loop of Ext2::read_file_from_offset.  The fuel argument bounds the
number of iterations; the wrapper passes enough fuel that a run can only
exhaust it if the loop diverges, and a none result marks that case. -/
def readFileLoop (d : Disk) (inodeNum fileSize : Nat) :
    Nat → Nat → Nat → Nat → Nat → List Nat → Option (KRes (Nat × List Nat))
  | 0, _, _, _, _, _ => none
  | fuel + 1, offset, bufLen, sectorNum, writeLen, acc =>
    if fileSize ≤ offset then some (.ok (writeLen, acc))
    else
      match readInodeSector d inodeNum sectorNum with
      | .err e => some (.err e)
      | .panicked => some .panicked
      | .ok sec =>
        let thisLen := min bufLen 512
        readFileLoop d inodeNum fileSize fuel (offset + thisLen)
          (bufLen - thisLen) (sectorNum + 1) (writeLen + thisLen)
          (acc ++ (List.range thisLen).map sec)

/-- Ext2::read_file_from_offset: clamp the buffer to file_size - offset (u64
wrapping subtraction truncated to usize, as in the source), then run the
copy loop from the sector containing the offset. -/
def readFileFromOffset (d : Disk) (inodeNum offset bufLen : Nat) :
    Option (KRes (Nat × List Nat)) :=
  match inodeAt d inodeNum with
  | .err e => some (.err e)
  | .panicked => some .panicked
  | .ok ino =>
    let avail := (ino.fileSize + U64 - offset % U64) % U64
    let bufLen' := if avail < bufLen then avail % U32 else bufLen
    readFileLoop d inodeNum ino.fileSize
      (bufLen' / 512 + 12 * sectorsPerBlock d + 3) offset bufLen' (offset / 512) 0 []

/-! ## Directories and path lookup (src/ext2.rs) -/

/-- DirectoryEntryIter::find_for_name over a directory block: parse the entry
header at idx, compare the name bytes, and step by entry_size.  The fuel
bounds the iteration count; an entry_size of zero would loop forever in the
source, which a none result records. -/
def dirFindForName (block : Nat → Nat) (blockLen : Nat) (name : List Nat) :
    Nat → Nat → Option (Option Nat)
  | 0, _ => none
  | fuel + 1, idx =>
    if blockLen ≤ idx then some none
    else
      let inodeNum := block idx + 256 * block (idx + 1) + 65536 * block (idx + 2) +
        16777216 * block (idx + 3)
      let entrySize := block (idx + 4) + 256 * block (idx + 5)
      let nameLen := block (idx + 6)
      let nameBytes := (List.range nameLen).map fun j => block (idx + 8 + j)
      if nameBytes = name then some (some inodeNum)
      else dirFindForName block blockLen name fuel (idx + entrySize)

/-- Ext2::read_dir: fetch the inode, insist on a single-block directory
(size_lower exactly 1024, anything else hits the todo), and read block 0 of
the directory through Ext2::read_block. -/
def readDirBlock (d : Disk) (dirInodeNum : Nat) : KRes ((Nat → Nat) × Nat) :=
  match inodeAt d dirInodeNum with
  | .err e => .err e
  | .panicked => .panicked
  | .ok ino =>
    if ¬ ino.sizeLower = 1024 then .panicked
    else
      let blockNum := ino.directBlockPointers.getD 0 0
      .ok (fun i =>
        readSectorByte d (blockNum * sectorsPerBlock d + i / 512) (i % 512),
        blockSize d)

/-- Ext2::lookup_path: walk from the root inode 2, resolving one
slash-separated component per directory. -/
def lookupPath (d : Disk) : List (List Nat) → Nat → Option (KRes (Option Nat))
  | [], inodeNum => some (.ok (some inodeNum))
  | part :: rest, inodeNum =>
    match readDirBlock d inodeNum with
    | .err e => some (.err e)
    | .panicked => some .panicked
    | .ok (block, blockLen) =>
      match dirFindForName block blockLen part (blockLen + 1) 0 with
      | none => none
      | some none => some (.ok none)
      | some (some nextInode) => lookupPath d rest nextInode

/-! ## UTF-8 (str::from_utf8 and char::encode_utf8) -/

/-- Whether a byte is a UTF-8 continuation byte (0x80 to 0xBF). -/
def utf8IsCont (b : Nat) : Bool := decide (128 ≤ b ∧ b < 192)

/-- Validity of a byte list as UTF-8, per the checks str::from_utf8 performs:
ASCII, and 2 to 4 byte sequences excluding overlongs, surrogates and code
points above 0x10FFFF. -/
def validUtf8 : List Nat → Bool
  | [] => true
  | b :: l =>
    if b < 128 then validUtf8 l
    else if 194 ≤ b ∧ b ≤ 223 then
      match l with
      | b1 :: l' => utf8IsCont b1 && validUtf8 l'
      | [] => false
    else if b = 224 then
      match l with
      | b1 :: b2 :: l' => decide (160 ≤ b1 ∧ b1 < 192) && utf8IsCont b2 && validUtf8 l'
      | _ => false
    else if 225 ≤ b ∧ b ≤ 236 ∨ b = 238 ∨ b = 239 then
      match l with
      | b1 :: b2 :: l' => utf8IsCont b1 && utf8IsCont b2 && validUtf8 l'
      | _ => false
    else if b = 237 then
      match l with
      | b1 :: b2 :: l' => decide (128 ≤ b1 ∧ b1 < 160) && utf8IsCont b2 && validUtf8 l'
      | _ => false
    else if b = 240 then
      match l with
      | b1 :: b2 :: b3 :: l' =>
        decide (144 ≤ b1 ∧ b1 < 192) && utf8IsCont b2 && utf8IsCont b3 && validUtf8 l'
      | _ => false
    else if 241 ≤ b ∧ b ≤ 243 then
      match l with
      | b1 :: b2 :: b3 :: l' =>
        utf8IsCont b1 && utf8IsCont b2 && utf8IsCont b3 && validUtf8 l'
      | _ => false
    else if b = 244 then
      match l with
      | b1 :: b2 :: b3 :: l' =>
        decide (128 ≤ b1 ∧ b1 < 144) && utf8IsCont b2 && utf8IsCont b3 && validUtf8 l'
      | _ => false
    else false

/-- UTF-8 encoding of a scalar value, as char::encode_utf8 produces it. -/
def utf8EncodeChar (c : Nat) : List Nat :=
  if c < 128 then [c]
  else if c < 2048 then [192 + c / 64, 128 + c % 64]
  else if c < 65536 then [224 + c / 4096, 128 + c / 64 % 64, 128 + c % 64]
  else [240 + c / 262144, 128 + c / 4096 % 64, 128 + c / 64 % 64, 128 + c % 64]

/-- Split a byte list at slash bytes, as str::split produces the pieces
(an empty input yields one empty component). -/
def splitSlash (bytes : List Nat) : List (List Nat) :=
  let step := fun (b : Nat) (acc : List (List Nat)) =>
    match acc with
    | cur :: done => if b = 47 then [] :: cur :: done else (b :: cur) :: done
    | [] => [[b]]
  bytes.foldr step [[]]

/-! ## Virtio split queue (src/virtio.rs) -/

/-- One element of the used ring. -/
structure UsedElem where
  index : Nat
  length : Nat
  deriving Repr, DecidableEq

/-- The driver-written available ring. -/
structure AvailRing where
  flags : Nat
  index : Nat
  ring : Nat → Nat

/-- The device-written used ring. -/
structure UsedRing where
  flags : Nat
  index : Nat
  ring : Nat → UsedElem

/-- The parts of the virt queue that Virtio::run_descriptor manipulates. -/
structure VQueue where
  available : AvailRing
  used : UsedRing

/-- The queue holds 16 entries. -/
def QUEUE_SIZE : Nat := 16

/-- Virtio::run_descriptor: store the descriptor index into
available.ring[available.index % 16] (first through a plain write, then
overwritten with 0 by the volatile write the source performs), increment the
16-bit available index, notify the device (the dev oracle runs the hardware
until its used index catches up), and finally read the used element at
used.ring[used.index % 16] -- the index is NOT decremented first. -/
def runDescriptor (q : VQueue) (dev : VQueue → VQueue) (descriptorIdx : Nat) :
    UsedElem × VQueue :=
  let ring1 := fun i => if i = q.available.index % QUEUE_SIZE then descriptorIdx
    else q.available.ring i
  let ring2 := fun i => if i = q.available.index % QUEUE_SIZE then 0 else ring1 i
  let q1 : VQueue :=
    { available := { flags := q.available.flags,
                     index := (q.available.index + 1) % 65536, ring := ring2 },
      used := q.used }
  let q2 := dev q1
  (q2.used.ring (q2.used.index % QUEUE_SIZE), q2)

/-- VirtioRandom::read_random: submit the whole remaining buffer each
iteration and compare the used length returned by run_descriptor; retry with
the remainder, giving up with Io after 128 iterations.  The rng oracle gives
the used length reported at each iteration; a reported length beyond the
remaining buffer would make the slice index panic. -/
def readRandomLoop (rng : Nat → Nat) : Nat → Nat → Nat → KRes Unit
  | 0, _, _ => .err .Io
  | fuel + 1, numIters, bufLen =>
    if 128 < numIters + 1 then .err .Io
    else
      let used := rng (numIters + 1)
      if used = bufLen then .ok ()
      else if bufLen < used then .panicked
      else readRandomLoop rng fuel (numIters + 1) (bufLen - used)

/-- Entry point of read_random.  The structural counter starts at 129, one
more than the iteration cap, so it never runs out before the cap fires. -/
def readRandom (rng : Nat → Nat) (bufLen : Nat) : KRes Unit :=
  readRandomLoop rng 129 0 bufLen

/-! ## Size-classed allocator (src/alloc/raw.rs) -/

/-- One FixedSizeAllocator: a free list of block addresses and the fresh
bump pointer within the current backing page (null when no page yet). -/
structure FixedSt where
  freeList : List Nat
  freshHead : Nat
  deriving Repr, DecidableEq

/-- class_for_size: None above the largest class, otherwise the class index
and the power-of-two raw size (at least 16). -/
def classForSize (size : Nat) : Option (Nat × Nat) :=
  if 2048 < size then none
  else
    let rounded := max size.nextPowerOfTwo 16
    some ((rounded / 16).log2, rounded)

/-- FixedSizeAllocator::allocate: pop the free list if possible, otherwise
grab a fresh page when the bump pointer is page-aligned (which includes the
initial null), then hand out the bump pointer and advance it. -/
def fixedAllocate (L : MemLayout) (a : PageAllocSt) (st : FixedSt) (size : Nat) :
    KRes (Nat × PageAllocSt × FixedSt) :=
  if size < 4 then .panicked
  else
    match st.freeList with
    | h :: t => .ok (h, a, ⟨t, st.freshHead⟩)
    | [] =>
      if st.freshHead % PAGE_SIZE = 0 then
        match allocPages L a 1 with
        | .ok (p, a') => .ok (p, a', ⟨[], (p + size) % U32⟩)
        | .err e => .err e
        | .panicked => .panicked
      else .ok (st.freshHead, a, ⟨[], (st.freshHead + size) % U32⟩)

/-- FixedSizeAllocator::deallocate: push onto the free list. -/
def fixedDeallocate (st : FixedSt) (ptr : Nat) : FixedSt :=
  ⟨ptr :: st.freeList, st.freshHead⟩

/-- KAllocator::allocate_inner: size zero gives a dangling align-valid
pointer, above-page alignment hits a todo, oversized requests go straight to
the page allocator, and otherwise the matching size class serves the
request. -/
def allocateInner (L : MemLayout) (a : PageAllocSt) (classes : List FixedSt)
    (size align : Nat) : KRes (Nat × PageAllocSt × List FixedSt) :=
  if size = 0 then .ok (align, a, classes)
  else if PAGE_SIZE < align then .panicked
  else
    let eff := max size align
    match classForSize eff with
    | none =>
      match allocPages L a ((eff + PAGE_SIZE - 1) / PAGE_SIZE) with
      | .ok (p, a') => .ok (p, a', classes)
      | .err e => .err e
      | .panicked => .panicked
    | some (cls, raw) =>
      match fixedAllocate L a (classes.getD cls ⟨[], 0⟩) raw with
      | .ok (p, a', st') => .ok (p, a', classes.set cls st')
      | .err e => .err e
      | .panicked => .panicked

/-- KAllocator::deallocate_inner: size zero is a no-op, an oversized layout
hits the todo, otherwise the block goes back to its class free list. -/
def deallocateInner (classes : List FixedSt) (ptr size align : Nat) :
    KRes (List FixedSt) :=
  if size = 0 then .ok classes
  else
    let eff := max size align
    match classForSize eff with
    | none => .panicked
    | some (cls, _) => .ok (classes.set cls (fixedDeallocate (classes.getD cls ⟨[], 0⟩) ptr))

/-- The compiler-chosen layout size of the reference-counted spin-locked
ResourceDescription box allocated by ResourceDescriptor::new.  The exact
Rust layout size is compiler-determined; any value in the same power-of-two
size class produces an identical model. -/
def KRC_RD_SIZE : Nat := 40

/-- The alignment of that layout (the u64 file offset). -/
def KRC_RD_ALIGN : Nat := 8

/-- The size of one Option of ResourceDescriptor slot: a nullable pointer. -/
def OPTION_RD_SIZE : Nat := 4

/-! ## Resource descriptions (src/resource_desc.rs) -/

/-- A resource description: the vtable and its union payload, as the tagged
record the pairing invariant maintains.  File flags: bit 0 Present, bit 1
Readable, bit 2 Writable. -/
inductive RDesc where
  | file (flags inodeNum offset : Nat)
  | consoleIn
  | consoleOut
  deriving Repr, DecidableEq

/-- Result of a kernel service: value, recoverable error, panic, or a loop
that failed to terminate within its modelled fuel. -/
inductive SRes (α : Type) where
  | ok (a : α)
  | err (e : ErrorKind)
  | panicked
  | hung
  deriving Repr, DecidableEq

/-- Modelled from the spec: Ext2::write_file_from_offset is called from
src/resource_desc.rs but its definition is not under src/.  Resolve a file
sector through the direct block pointers exactly as the read path does;
indirect pointers are Unsupported. -/
def resolveInodeSector (d : Disk) (inodeNum sectorNum : Nat) : KRes Nat :=
  match inodeAt d inodeNum with
  | .err e => .err e
  | .panicked => .panicked
  | .ok ino =>
    let blockIdx := sectorNum / sectorsPerBlock d
    match ino.directBlockPointers.get? blockIdx with
    | none => .err .Unsupported
    | some blockNum => .ok (blockNum * sectorsPerBlock d + sectorNum % sectorsPerBlock d)

/-- Modelled from the spec: the sector loop of write_file_from_offset,
symmetric to the read loop: stop at the end of the file, resolve each
straddled sector and store the slice. -/
def writeFileLoop (inodeNum fileSize : Nat) :
    Nat → Disk → Nat → List Nat → Nat → Nat → Option (KRes (Nat × Disk))
  | 0, _, _, _, _, _ => none
  | fuel + 1, d, offset, bytes, sectorNum, writtenLen =>
    if fileSize ≤ offset then some (.ok (writtenLen, d))
    else
      match resolveInodeSector d inodeNum sectorNum with
      | .err e => some (.err e)
      | .panicked => some .panicked
      | .ok target =>
        let thisLen := min bytes.length 512
        let d' : Disk := fun s i =>
          if s = target ∧ i < thisLen then bytes.getD i 0 else d s i
        writeFileLoop inodeNum fileSize fuel d' (offset + thisLen)
          (bytes.drop thisLen) (sectorNum + 1) (writtenLen + thisLen)

/-- Modelled from the spec: write_file_from_offset clamps the buffer to
file_size - offset (the file is never extended) and writes sector by
sector, returning the byte count written. -/
def writeFileFromOffset (d : Disk) (inodeNum offset : Nat) (bytes : List Nat) :
    Option (KRes (Nat × Disk)) :=
  match inodeAt d inodeNum with
  | .err e => some (.err e)
  | .panicked => some .panicked
  | .ok ino =>
    let len := min bytes.length (ino.fileSize - offset)
    writeFileLoop inodeNum ino.fileSize (len / 512 + 12 * sectorsPerBlock d + 3) d
      offset (bytes.take len) (offset / 512) 0

/-- The file vtable read (resource_desc.rs file_read): assert Present and
Readable, delegate to read_file_from_offset with the stored offset.  The
source does NOT advance the stored offset afterwards, so the returned
description carries the same offset. -/
def rdescRead (d : Disk) (cin : Nat) (rd : RDesc) (bufLen : Nat) :
    SRes (Nat × List Nat) × RDesc :=
  match rd with
  | .file flags inodeNum offset =>
    if ¬ (flags &&& 1 = 1 ∧ flags &&& 2 = 2) then (.panicked, rd)
    else
      match readFileFromOffset d inodeNum offset bufLen with
      | none => (.hung, rd)
      | some (.err e) => (.err e, rd)
      | some .panicked => (.panicked, rd)
      | some (.ok (len, bytes)) => (.ok (len, bytes), rd)
  | .consoleIn =>
    let bytes := utf8EncodeChar cin
    if bufLen < bytes.length then (.panicked, rd)
    else (.ok (bytes.length, bytes), rd)
  | .consoleOut => (.panicked, rd)

/-- The file vtable write (file_write): assert Present and Writable,
delegate to write_file_from_offset and advance the stored offset by the
returned length.  Console-in write panics; console-out write panics on
non-UTF-8 data (the expect in the source) and otherwise echoes every
character, returning the byte count. -/
def rdescWrite (d : Disk) (rd : RDesc) (bytes : List Nat) :
    SRes Nat × Disk × RDesc :=
  match rd with
  | .file flags inodeNum offset =>
    if ¬ (flags &&& 1 = 1 ∧ flags &&& 4 = 4) then (.panicked, d, rd)
    else
      match writeFileFromOffset d inodeNum offset bytes with
      | none => (.hung, d, rd)
      | some (.err e) => (.err e, d, rd)
      | some .panicked => (.panicked, d, rd)
      | some (.ok (len, d')) => (.ok len, d', .file flags inodeNum (offset + len))
  | .consoleIn => (.panicked, d, rd)
  | .consoleOut =>
    if ¬ validUtf8 bytes then (.panicked, d, rd)
    else (.ok bytes.length, d, rd)

/-! ## Kernel state and the syscall dispatcher (src/syscall.rs) -/

/-- The state the dispatcher touches: allocators, the page-table heap, RAM
bytes, the active root table, the current process fields (mmap head, pid,
resource-descriptor table and its backing page), the disk, and oracles for
the entropy device and the console. -/
structure Kern where
  alloc : PageAllocSt
  sized : List FixedSt
  heap : PTHeap
  ram : Nat → Nat
  rootTable : Option Nat
  mmapHead : Nat
  pid : Nat
  rds : Nat → Option (Nat × RDesc)
  rdTableAddr : Nat
  disk : Disk
  rng : Nat → Nat
  rngBytes : Nat → Nat
  cin : Nat
  exited : Bool

/-- A trap frame restricted to the registers the dispatcher reads and
writes: a0 holds the syscall number, a1 to a3 the arguments, a1 the return
value and a2 the error code. -/
structure Frame where
  a0 : Nat
  a1 : Nat
  a2 : Nat
  a3 : Nat
  deriving Repr, DecidableEq

/-- paddr_for_vaddr: identity without an active table, otherwise walk and
add the offset within the page; a missing translation hits a todo. -/
def paddrForVaddr (h : PTHeap) (root : Option Nat) (vaddr : Nat) : KRes Nat :=
  match root with
  | none => .ok vaddr
  | some _ =>
    match entryForVaddr h root vaddr with
    | .entry e => .ok (entryPhysicalAddr e + vaddr % PAGE_SIZE)
    | _ => .panicked

/-- One byte of user memory read through the active translation (the zero
default is unreachable for regions the guards validated). -/
def userByte (k : Kern) (va : Nat) : Nat :=
  match paddrForVaddr k.heap k.rootTable va with
  | .ok pa => k.ram pa % 256
  | _ => 0

/-- A user buffer read through the active translation. -/
def userBytes (k : Kern) (addr len : Nat) : List Nat :=
  (List.range len).map fun i => userByte k (addr + i)

/-- Store bytes into RAM through the active translation. -/
def ramWriteUser (k : Kern) (addr : Nat) (bytes : List Nat) : Nat → Nat :=
  (List.range bytes.length).foldl
    (fun r i =>
      match paddrForVaddr k.heap k.rootTable (addr + i) with
      | .ok pa => fun x => if x = pa then bytes.getD i 0 else r x
      | _ => r)
    k.ram

/-- The user page flags syscall_mmap passes to map_page. -/
def FLAG_RWXU : Nat := FLAG_READABLE ||| FLAG_WRITABLE ||| FLAG_EXECUTABLE ||| FLAG_USER

/-- The per-page map_page loop of syscall_mmap over the zipped
(physical, user-virtual) pairs; an error or panic stops the loop with the
state mutated so far. -/
def mmapLoop (L : MemLayout) (root flags : Nat) :
    PageAllocSt → PTHeap → List (Nat × Nat) → KRes Unit × PageAllocSt × PTHeap
  | a, h, [] => (.ok (), a, h)
  | a, h, (pa, va) :: rest =>
    match mapPage L a h root va pa flags with
    | .ok (a', h') => mmapLoop L root flags a' h' rest
    | .err e => (.err e, a, h)
    | .panicked => (.panicked, a, h)

/-- syscall_mmap: round the size up to pages, unwrap the active table and
the zeroed allocation (either failure panics), return the current mmap head,
advance it by one page more than the allocation, and map every page with
R, W, X and UserAccessible flags. -/
def syscallMmap (L : MemLayout) (k : Kern) (allocSize : Nat) : SRes Nat × Kern :=
  let n := (allocSize + PAGE_SIZE - 1) / PAGE_SIZE
  match k.rootTable with
  | none => (.panicked, k)
  | some root =>
    match allocPages L k.alloc n with
    | .err _ => (.panicked, k)
    | .panicked => (.panicked, k)
    | .ok (p, a₁) =>
      let ram₁ := fun x => if p ≤ x ∧ x < p + n * PAGE_SIZE then 0 else k.ram x
      let start := k.mmapHead
      let head' := k.mmapHead + PAGE_SIZE * (n + 1)
      let pairs := (List.range n).map fun i => (p + PAGE_SIZE * i, start + PAGE_SIZE * i)
      match mmapLoop L root FLAG_RWXU a₁ k.heap pairs with
      | (.ok _, a₂, h₂) =>
        (.ok start, { k with alloc := a₂, heap := h₂, ram := ram₁, mmapHead := head' })
      | (.err e, a₂, h₂) =>
        (.err e, { k with alloc := a₂, heap := h₂, ram := ram₁, mmapHead := head' })
      | (_, _, _) => (.panicked, k)

/-- syscall_open: the path must be UTF-8 and absolute; find the lowest free
descriptor slot (LimitReached when none); resolve the path (NotFound when a
component is missing); derive the file flags from the open flags (the Append
todo panics); allocate the reference-counted description and fill the
slot. -/
def syscallOpen (L : MemLayout) (k : Kern) (pathBytes : List Nat) (openFlags : Nat) :
    SRes Nat × Kern :=
  if ¬ validUtf8 pathBytes then (.err .InvalidFormat, k)
  else
    match pathBytes with
    | 47 :: rest =>
      match (List.range 1024).find? (fun i => (k.rds i).isNone) with
      | none => (.err .LimitReached, k)
      | some descNum =>
        match lookupPath k.disk (splitSlash rest) 2 with
        | none => (.hung, k)
        | some (.err e) => (.err e, k)
        | some .panicked => (.panicked, k)
        | some (.ok none) => (.err .NotFound, k)
        | some (.ok (some inodeNum)) =>
          let flags := 1 ||| (if openFlags &&& 1 = 1 then 2 else 0) |||
            (if openFlags &&& 2 = 2 then 4 else 0)
          if openFlags &&& 4 = 4 then (.panicked, k)
          else
            match allocateInner L k.alloc k.sized KRC_RD_SIZE KRC_RD_ALIGN with
            | .err e => (.err e, k)
            | .panicked => (.panicked, k)
            | .ok (boxAddr, a', sized') =>
              (.ok descNum,
                { k with
                  alloc := a'
                  sized := sized'
                  rds := fun i => if i = descNum then some (boxAddr, .file flags inodeNum 0)
                    else k.rds i })
    | _ => (.err .InvalidFormat, k)

/-- syscall_read: index the descriptor table (an out-of-range index is an
array-bounds panic), NotFound for an empty slot, then the vtable read. -/
def syscallRead (k : Kern) (descNum bufLen : Nat) : SRes (Nat × List Nat) × Kern :=
  if ¬ descNum < 1024 then (.panicked, k)
  else
    match k.rds descNum with
    | none => (.err .NotFound, k)
    | some (boxAddr, rd) =>
      let r := rdescRead k.disk k.cin rd bufLen
      (r.1, { k with
        rds := fun i => if i = descNum then some (boxAddr, r.2) else k.rds i })

/-- syscall_write: same shape as syscall_read over the vtable write. -/
def syscallWrite (k : Kern) (descNum : Nat) (bytes : List Nat) : SRes Nat × Kern :=
  if ¬ descNum < 1024 then (.panicked, k)
  else
    match k.rds descNum with
    | none => (.err .NotFound, k)
    | some (boxAddr, rd) =>
      let r := rdescWrite k.disk rd bytes
      (r.1, { k with
        disk := r.2.1
        rds := fun i => if i = descNum then some (boxAddr, r.2.2) else k.rds i })

/-- Result of handling one trap: return to user with a frame and state,
transfer to the scheduler (SchedYield and Exit), panic, or hang. -/
inductive SysRes where
  | ok (f : Frame) (k : Kern)
  | sched (f : Frame) (k : Kern)
  | panicked
  | hung

/-- handle_syscall: dispatch on a0.  GetPid returns the pid; SchedYield and
Exit hand control to the scheduler (Exit also drops every descriptor,
returning each box to its size class, and frees the descriptor table page);
GetRandom validates the buffer then unwraps read_random; Open, Read and
Write validate their user buffers (NotPermitted on failure) and encode
service errors as -1 in a1 with the ErrorKind in a2; Close asserts the
descriptor index is in range; Mmap needs no pointer validation; Munmap is a
todo that returns 0; an unknown syscall number panics. -/
def handleSyscall (L : MemLayout) (k : Kern) (f : Frame) : SysRes :=
  if f.a0 = 3 then .ok { f with a1 := k.pid } k
  else if f.a0 = 4 then .sched f k
  else if f.a0 = 5 then
    let sized' := (List.range 1024).foldl
      (fun s i =>
        match k.rds i with
        | some (boxAddr, _) =>
          match deallocateInner s boxAddr KRC_RD_SIZE KRC_RD_ALIGN with
          | .ok s' => s'
          | _ => s
        | none => s)
      k.sized
    match freePages k.alloc k.rdTableAddr
        ((1024 * OPTION_RD_SIZE + PAGE_SIZE - 1) / PAGE_SIZE) with
    | .ok a' =>
      .sched f { k with
        exited := true
        rds := fun _ => none
        alloc := a'
        sized := sized' }
    | _ => .panicked
  else if f.a0 = 6 then
    match userMemMutOpaqueForRegion k.heap k.rootTable f.a1 f.a2 with
    | none => .ok { f with a1 := U32 - 1, a2 := ErrorKind.NotPermitted.code } k
    | some _ =>
      match readRandom k.rng f.a2 with
      | .ok _ =>
        match paddrForVaddr k.heap k.rootTable f.a1 with
        | .ok pa =>
          .ok { f with a1 := 0 }
            { k with ram := fun x =>
              if pa ≤ x ∧ x < pa + f.a2 then k.rngBytes (x - pa) % 256 else k.ram x }
        | _ => .panicked
      | _ => .panicked
  else if f.a0 = 7 then
    match UserMemRef.forRegion k.heap k.rootTable f.a1 f.a2 with
    | none => .ok { f with a1 := U32 - 1, a2 := ErrorKind.NotPermitted.code } k
    | some _ =>
      let r := syscallOpen L k (userBytes k f.a1 f.a2) f.a3
      match r.1 with
      | .ok desc => .ok { f with a1 := desc } r.2
      | .err e => .ok { f with a1 := U32 - 1, a2 := e.code } r.2
      | .panicked => .panicked
      | .hung => .hung
  else if f.a0 = 8 then
    if ¬ f.a1 < 1024 then .panicked
    else
      match k.rds f.a1 with
      | none => .ok { f with a1 := U32 - 1, a2 := ErrorKind.NotFound.code } k
      | some (boxAddr, _) =>
        match deallocateInner k.sized boxAddr KRC_RD_SIZE KRC_RD_ALIGN with
        | .ok sized' =>
          .ok f { k with
            rds := fun i => if i = f.a1 then none else k.rds i
            sized := sized' }
        | _ => .panicked
  else if f.a0 = 9 then
    match UserMemMut.forRegion k.heap k.rootTable f.a2 f.a3 with
    | none => .ok { f with a1 := U32 - 1, a2 := ErrorKind.NotPermitted.code } k
    | some _ =>
      let r := syscallRead k f.a1 f.a3
      match r.1 with
      | .ok (len, bytes) =>
        .ok { f with a1 := len } { r.2 with ram := ramWriteUser r.2 f.a2 bytes }
      | .err e => .ok { f with a1 := U32 - 1, a2 := e.code } r.2
      | .panicked => .panicked
      | .hung => .hung
  else if f.a0 = 10 then
    match UserMemRef.forRegion k.heap k.rootTable f.a2 f.a3 with
    | none => .ok { f with a1 := U32 - 1, a2 := ErrorKind.NotPermitted.code } k
    | some _ =>
      let r := syscallWrite k f.a1 (userBytes k f.a2 f.a3)
      match r.1 with
      | .ok len => .ok { f with a1 := len } r.2
      | .err e => .ok { f with a1 := U32 - 1, a2 := e.code } r.2
      | .panicked => .panicked
      | .hung => .hung
  else if f.a0 = 11 then
    let r := syscallMmap L k f.a1
    match r.1 with
    | .ok v => .ok { f with a1 := v } r.2
    | .err e => .ok { f with a1 := U32 - 1, a2 := e.code } r.2
    | .panicked => .panicked
    | .hung => .hung
  else if f.a0 = 12 then .ok { f with a1 := 0 } k
  else .panicked

/-- A concrete kernel state for witnesses: empty descriptor table, no active
page table, fresh allocator. -/
def kern0 : Kern where
  alloc := ⟨0x80000000, []⟩
  sized := []
  heap := fun _ _ => 0
  ram := fun _ => 0
  rootTable := none
  mmapHead := 0x02000000
  pid := 1
  rds := fun _ => none
  rdTableAddr := 0x80042000
  disk := fun _ _ => 0
  rng := fun _ => 0
  rngBytes := fun _ => 0
  cin := 97
  exited := false

/-- A concrete memory layout matching the QEMU virt machine RAM window. -/
def layout0 : MemLayout := ⟨0x80000000, 0x84000000⟩

/-- A concrete ext2 disk: 1024-byte blocks, 16 inodes and blocks per group,
128-byte inodes, the group-0 inode table at block 10, inode 1 a regular file
of 2 bytes 0xAA 0xBB stored in block 7 (disk sector 14), and inode 2 the
root directory (one block at block 8, holding a single entry "hello"). -/
def diskFile : Disk := fun sec i =>
  if sec = 2 then
    if i = 4 then 16
    else if i = 32 then 16
    else if i = 40 then 16
    else if i = 76 then 1
    else if i = 88 then 128
    else 0
  else if sec = 4 then (if i = 8 then 10 else 0)
  else if sec = 20 then
    (if i = 1 then 128 else if i = 4 then 2 else if i = 40 then 7
     else if i = 129 then 64 else if i = 133 then 4 else if i = 168 then 8 else 0)
  else if sec = 14 then (if i = 0 then 170 else if i = 1 then 187 else 0)
  else if sec = 16 then
    (if i = 0 then 11 else if i = 5 then 4 else if i = 6 then 5
     else if i = 8 then 104 else if i = 9 then 101 else if i = 10 then 108
     else if i = 11 then 108 else if i = 12 then 111 else 0)
  else 0

/-- Kernel state for Open scenarios: one user page mapped at 0x01000000
(through demoHeap) backed by physical 0x5000, the concrete ext2 disk, and
the path bytes "relative" in RAM. -/
def kernOpenA : Kern := { kern0 with
  rootTable := some 0x1000
  heap := demoHeap
  disk := diskFile
  ram := fun x =>
    if x = 0x5000 then 114 else if x = 0x5001 then 101 else if x = 0x5002 then 108
    else if x = 0x5003 then 97 else if x = 0x5004 then 116 else if x = 0x5005 then 105
    else if x = 0x5006 then 118 else if x = 0x5007 then 101 else 0 }

/-- Same state with the path bytes "/zzz" in RAM. -/
def kernOpenB : Kern := { kernOpenA with
  ram := fun x =>
    if x = 0x5000 then 47 else if x = 0x5001 then 122 else if x = 0x5002 then 122
    else if x = 0x5003 then 122 else 0 }

/-- Same state with every descriptor slot occupied. -/
def kernOpenC : Kern := { kernOpenB with rds := fun _ => some (0, .consoleOut) }

/-- A kernel state whose bump pool is exhausted. -/
def kernOOM : Kern := { kern0 with
  rootTable := some 0x1000
  alloc := ⟨0x84000000, []⟩ }

/-- A kernel state with one writable user page mapped at 0x01000000 and an
entropy device that always reports zero-length completions. -/
def kernRng : Kern := { kern0 with
  rootTable := some 0x1000
  heap := demoHeap
  rng := fun _ => 0 }

/-- The on-disk contents of a file, as laid out through its direct block
pointers: byte j lives at byte j % 512 of sector j / 512 of the file, which
is sector (j / 512) % spb of block pointer number j / 512 / spb. -/
def fileBytes (d : Disk) (ino : InodeRec) (len : Nat) : List Nat :=
  (List.range len).map fun j =>
    readSectorByte d
      (ino.directBlockPointers.getD (j / 512 / sectorsPerBlock d) 0 * sectorsPerBlock d
        + (j / 512) % sectorsPerBlock d)
      (j % 512)

/-- The inode record of file 1 on the concrete disk. -/
def inoFile : InodeRec := ⟨0x8000, 2, 0, [7, 0, 0, 0, 0, 0, 0, 0, 0, 0, 0, 0]⟩

/-- The walk for va stops at an invalid (not yet mapped) leaf: whenever the
first-level entry is valid, the second-level entry it points to is empty of
the Valid flag.  map_page's leaf assertion requires exactly this. -/
def leafInvalid (h : PTHeap) (root va : Nat) : Prop :=
  bitsContains (entryFlags (h root (vpn1Of va))) FLAG_VALID = true →
  bitsContains (entryFlags (h (entryPhysicalAddr (h root (vpn1Of va))) (vpn0Of va)))
    FLAG_VALID = false

/-- Well-formedness of a two-level table rooted at root with respect to the
allocator cursor: the root was allocated below the cursor, and every valid
first-level entry points to a second-level table that also lies below the
cursor, is distinct from the root, and is distinct from every other valid
first-level entry's table. -/
def PTWF (h : PTHeap) (root cursor : Nat) : Prop :=
  root < cursor ∧
  ∀ j, bitsContains (entryFlags (h root j)) FLAG_VALID = true →
    entryPhysicalAddr (h root j) < cursor ∧ entryPhysicalAddr (h root j) ≠ root ∧
    ∀ j2, j2 ≠ j → bitsContains (entryFlags (h root j2)) FLAG_VALID = true →
      entryPhysicalAddr (h root j2) ≠ entryPhysicalAddr (h root j)

/-- Kernel state for the mmap scenario: active root table at 0x1000 with an
all-empty page-table heap, allocator cursor at 0x80002000, mmap head at its
boot value. -/
def kernMmap : Kern := { kern0 with
  rootTable := some 0x1000
  alloc := ⟨0x80002000, []⟩ }

/-- A successful allocation that cannot wrap returns the old cursor and bumps
the cursor by the requested bytes, staying within the pool. -/
theorem allocPages_ok (L : MemLayout) (s : PageAllocSt) (n p : Nat)
    (s₁ : PageAllocSt) (hc : s.cursor ≤ L.freeRamEnd)
    (hnw : PAGE_SIZE * n + L.freeRamEnd < U32)
    (h : allocPages L s n = .ok (p, s₁)) :
    p = s.cursor ∧ s₁.cursor = s.cursor + PAGE_SIZE * n ∧
      s₁.freed = s.freed ∧ s.cursor + PAGE_SIZE * n ≤ L.freeRamEnd := by
  unfold allocPages at h
  have hmod : (s.cursor + PAGE_SIZE * n) % U32 = s.cursor + PAGE_SIZE * n :=
    Nat.mod_eq_of_lt (by omega)
  rw [hmod] at h
  split at h
  · simp at h
  split at h
  · simp at h
  split at h
  · simp at h
  · rename_i hgt
    obtain ⟨hp, hs⟩ : p = s.cursor ∧ s₁ = ⟨s.cursor + PAGE_SIZE * n, s.freed⟩ := by
      cases h; exact ⟨rfl, rfl⟩
    subst hp; subst hs
    exact ⟨rfl, rfl, rfl, by omega⟩

/-- Running a request stream from a good state keeps the state good, never
moves the cursor backwards, and every successful allocation is a page-aligned
region carved between the starting cursor and the final cursor, the regions
listed in increasing order. -/
theorem runAllocOps_aux (L : MemLayout) :
    ∀ (ops : List AllocOp) (s : PageAllocSt), GoodAlloc L s →
    (∀ n, AllocOp.alloc n ∈ ops → PAGE_SIZE * n + L.freeRamEnd < U32) →
    GoodAlloc L (runAllocOps L ops s).1 ∧
    s.cursor ≤ (runAllocOps L ops s).1.cursor ∧
    (∀ r ∈ (runAllocOps L ops s).2,
      PAGE_SIZE ∣ r.1 ∧ s.cursor ≤ r.1 ∧
        r.1 + PAGE_SIZE * r.2 ≤ (runAllocOps L ops s).1.cursor) ∧
    (runAllocOps L ops s).2.Pairwise (fun a b => a.1 + PAGE_SIZE * a.2 ≤ b.1)
  | [], s, hG, _ => ⟨hG, Nat.le_refl _, by simp [runAllocOps], by simp [runAllocOps]⟩
  | .alloc n :: ops, s, hG, hOps => by
    have hnw : PAGE_SIZE * n + L.freeRamEnd < U32 := hOps n (List.mem_cons_self _ _)
    have hOps' : ∀ m, AllocOp.alloc m ∈ ops → PAGE_SIZE * m + L.freeRamEnd < U32 :=
      fun m hm => hOps m (List.mem_cons_of_mem _ hm)
    obtain ⟨hGd, hGl, hGr⟩ := hG
    rcases hA : allocPages L s n with ⟨p, s₁⟩ | e | _
    · obtain ⟨hp, hcur, hfreed, hle⟩ := allocPages_ok L s n p s₁ hGr hnw hA
      have hG₁ : GoodAlloc L s₁ :=
        ⟨by rw [hcur]; exact Nat.dvd_add hGd (dvd_mul_right _ _), by omega, by omega⟩
      obtain ⟨ihG, ihMono, ihIn, ihPair⟩ := runAllocOps_aux L ops s₁ hG₁ hOps'
      refine ⟨?_, ?_, ?_, ?_⟩ <;> simp only [runAllocOps, hA]
      · exact ihG
      · omega
      · intro r hr
        rcases List.mem_cons.mp hr with hr | hr
        · subst hr
          refine ⟨hp ▸ hGd, ?_, ?_⟩ <;> dsimp only <;> omega
        · obtain ⟨h1, h2, h3⟩ := ihIn r hr
          exact ⟨h1, by omega, h3⟩
      · refine List.pairwise_cons.mpr ⟨?_, ihPair⟩
        intro b hb
        obtain ⟨_, h2, _⟩ := ihIn b hb
        dsimp only
        omega
    · obtain ⟨ihG, ihMono, ihIn, ihPair⟩ :=
        runAllocOps_aux L ops s ⟨hGd, hGl, hGr⟩ hOps'
      exact ⟨by simp only [runAllocOps, hA]; exact ihG,
        by simp only [runAllocOps, hA]; exact ihMono,
        by simp only [runAllocOps, hA]; exact ihIn,
        by simp only [runAllocOps, hA]; exact ihPair⟩
    · exact ⟨by simp only [runAllocOps, hA]; exact ⟨hGd, hGl, hGr⟩,
        by simp only [runAllocOps, hA]; exact Nat.le_refl _,
        by simp only [runAllocOps, hA]; intro r hr; simp at hr,
        by simp only [runAllocOps, hA]; exact List.Pairwise.nil⟩
  | .free ptr n :: ops, s, hG, hOps => by
    have hOps' : ∀ m, AllocOp.alloc m ∈ ops → PAGE_SIZE * m + L.freeRamEnd < U32 :=
      fun m hm => hOps m (List.mem_cons_of_mem _ hm)
    rcases hF : freePages s ptr n with s₁ | e | _
    · have hs₁ : s₁.cursor = s.cursor := by
        unfold freePages at hF
        split at hF
        · split at hF
          · simp at hF
          · cases hF; rfl
        · simp at hF
      have hG₁ : GoodAlloc L s₁ := ⟨hs₁ ▸ hG.1, hs₁ ▸ hG.2.1, hs₁ ▸ hG.2.2⟩
      obtain ⟨ihG, ihMono, ihIn, ihPair⟩ := runAllocOps_aux L ops s₁ hG₁ hOps'
      refine ⟨?_, ?_, ?_, ?_⟩ <;> simp only [runAllocOps, hF]
      · exact ihG
      · omega
      · intro r hr
        obtain ⟨h1, h2, h3⟩ := ihIn r hr
        exact ⟨h1, by omega, h3⟩
      · exact ihPair
    · exact ⟨by simp only [runAllocOps, hF]; exact hG,
        by simp only [runAllocOps, hF]; exact Nat.le_refl _,
        by simp only [runAllocOps, hF]; intro r hr; simp at hr,
        by simp only [runAllocOps, hF]; exact List.Pairwise.nil⟩
    · exact ⟨by simp only [runAllocOps, hF]; exact hG,
        by simp only [runAllocOps, hF]; exact Nat.le_refl _,
        by simp only [runAllocOps, hF]; intro r hr; simp at hr,
        by simp only [runAllocOps, hF]; exact List.Pairwise.nil⟩

/-- Claim C5 (amended): for every request stream against the page allocator in
which each requested size obeys n * 4096 + __free_ram_end < 2^32 (so the
32-bit bump arithmetic cannot wrap), every pointer p returned by a successful
alloc_pages(n) is page-aligned, the region from p to p + n * 4096 lies within
the bump pool from __free_ram to __free_ram_end, regions returned by distinct
allocations never overlap, and when the bump cursor would pass __free_ram_end
(and no exact-size freed-list match exists) alloc_pages(n) fails with
OutOfMemory. -/
theorem alloc_pages_bounds (L : MemLayout) (ops : List AllocOp)
    (hAlign : PAGE_SIZE ∣ L.freeRam) (hLe : L.freeRam ≤ L.freeRamEnd)
    (hOps : ∀ n, AllocOp.alloc n ∈ ops → PAGE_SIZE * n + L.freeRamEnd < U32) :
    (∀ r ∈ (runAllocOps L ops ⟨L.freeRam, []⟩).2,
      PAGE_SIZE ∣ r.1 ∧ L.freeRam ≤ r.1 ∧ r.1 + PAGE_SIZE * r.2 ≤ L.freeRamEnd) ∧
    (runAllocOps L ops ⟨L.freeRam, []⟩).2.Pairwise
      (fun a b => a.1 + PAGE_SIZE * a.2 ≤ b.1 ∨ b.1 + PAGE_SIZE * b.2 ≤ a.1) ∧
    (∀ (s : PageAllocSt) (n : Nat), s.cursor ≤ L.freeRamEnd →
      freedHasExact s.freed n = false →
      PAGE_SIZE * n + L.freeRamEnd < U32 →
      L.freeRamEnd < s.cursor + PAGE_SIZE * n →
      allocPages L s n = .err .OutOfMemory) := by
  obtain ⟨hG, hMono, hIn, hPair⟩ :=
    runAllocOps_aux L ops ⟨L.freeRam, []⟩ ⟨hAlign, Nat.le_refl _, hLe⟩ hOps
  refine ⟨?_, ?_, ?_⟩
  · intro r hr
    obtain ⟨h1, h2, h3⟩ := hIn r hr
    obtain ⟨-, -, hGr⟩ := hG
    exact ⟨h1, h2, by omega⟩
  · exact hPair.imp (fun h => Or.inl h)
  · intro s n hc hno hnw hpass
    unfold allocPages
    rw [hno]
    have hmod : (s.cursor + PAGE_SIZE * n) % U32 = s.cursor + PAGE_SIZE * n :=
      Nat.mod_eq_of_lt (by omega)
    rw [if_neg (by simp), if_neg (by omega), if_pos (by omega)]

/-- Claim C5 counterexample: with the bump pool placed at its real location
(RAM at 0x80000000) and a fresh cursor, a request for 0x80000 pages makes the
32-bit cursor arithmetic wrap to 0, so alloc_pages succeeds and returns a
region that extends far past __free_ram_end instead of failing with
OutOfMemory. -/
theorem alloc_pages_wrap_breaks_bounds :
    allocPages ⟨0x80000000, 0x84800000⟩ ⟨0x80000000, []⟩ 0x80000 =
      .ok (0x80000000, ⟨0, []⟩) ∧
    freedHasExact ([] : List (Nat × Nat)) 0x80000 = false ∧
    0x84800000 < 0x80000000 + PAGE_SIZE * 0x80000 := by
  refine ⟨?_, rfl, by norm_num [PAGE_SIZE]⟩
  unfold allocPages freedHasExact
  norm_num [PAGE_SIZE, U32]

/-- Witness for alloc_pages_bounds at a concrete layout and request stream. -/
theorem alloc_pages_bounds_witness :
    (∀ r ∈ (runAllocOps ⟨0x80000000, 0x80005000⟩ [.alloc 1, .alloc 2]
        ⟨0x80000000, []⟩).2,
      PAGE_SIZE ∣ r.1 ∧ 0x80000000 ≤ r.1 ∧ r.1 + PAGE_SIZE * r.2 ≤ 0x80005000) ∧
    (runAllocOps ⟨0x80000000, 0x80005000⟩ [.alloc 1, .alloc 2]
        ⟨0x80000000, []⟩).2.Pairwise
      (fun a b => a.1 + PAGE_SIZE * a.2 ≤ b.1 ∨ b.1 + PAGE_SIZE * b.2 ≤ a.1) ∧
    (∀ (s : PageAllocSt) (n : Nat), s.cursor ≤ 0x80005000 →
      freedHasExact s.freed n = false →
      PAGE_SIZE * n + 0x80005000 < U32 →
      0x80005000 < s.cursor + PAGE_SIZE * n →
      allocPages ⟨0x80000000, 0x80005000⟩ s n = .err .OutOfMemory) :=
  alloc_pages_bounds ⟨0x80000000, 0x80005000⟩ [.alloc 1, .alloc 2]
    (by decide) (by norm_num)
    (by
      intro n hn
      simp only [List.mem_cons, AllocOp.alloc.injEq, List.not_mem_nil, or_false] at hn
      rcases hn with h | h <;> subst h <;> norm_num [PAGE_SIZE, U32])

/-- The large-page todo in entry_for_vaddr can never fire, because the
contains_any in bitset/src/lib.rs uses a bitwise or against a nonzero mask. -/
theorem entryForVaddr_ne_largePage (h : PTHeap) (root : Option Nat) (vaddr : Nat) :
    entryForVaddr h root vaddr ≠ .largePage := by
  unfold entryForVaddr
  rcases root with - | rt
  · simp
  · have hAny : ∀ f : Nat, bitsContainsAny f
        (FLAG_READABLE ||| FLAG_WRITABLE ||| FLAG_EXECUTABLE ||| FLAG_USER) = true := by
      intro f
      unfold bitsContainsAny FLAG_READABLE FLAG_WRITABLE FLAG_EXECUTABLE FLAG_USER
      simp only [ne_eq, decide_eq_true_eq]
      intro hzero
      have hbit := congrArg (fun x => Nat.testBit x 1) hzero
      simp [Nat.testBit_lor] at hbit
      exact absurd hbit.2 (by decide)
    simp only [hAny]
    split <;> simp

/-! ### Entry round-trip lemmas -/

/-- The address mask equals the low 22 bits shifted up by 10. -/
theorem addrMask_eq : ADDR_MASK = (2 ^ 22 - 1) <<< 10 := by
  norm_num [ADDR_MASK, U32, Nat.shiftLeft_eq]

/-- Bits of the address mask: exactly bits 10 through 31. -/
theorem testBit_addrMask (i : Nat) :
    ADDR_MASK.testBit i = (decide (10 ≤ i) && decide (i < 32)) := by
  rw [addrMask_eq, Nat.testBit_shiftLeft, Nat.testBit_two_pow_sub_one]
  rcases Nat.lt_or_ge i 10 with hi | hi
  · simp [Nat.not_le.mpr hi, show ¬ 10 ≤ i from Nat.not_le.mpr hi]
  · rcases Nat.lt_or_ge i 32 with h32 | h32
    · simp [hi, h32, show i - 10 < 22 by omega]
    · simp [hi, show ¬ i - 10 < 22 by omega, show ¬ i < 32 by omega]

/-- The flags mask is the low five bits. -/
theorem flagsMask_eq : FLAGS_MASK = 2 ^ 5 - 1 := by norm_num [FLAGS_MASK]

/-- Reading the flags out of a freshly built entry recovers the (masked)
flags that were stored. -/
theorem entryFlags_fromAddrFlags (addr f : Nat) :
    entryFlags (fromAddrFlags addr f) = f &&& FLAGS_MASK := by
  unfold entryFlags fromAddrFlags
  apply Nat.eq_of_testBit_eq
  intro i
  rw [flagsMask_eq]
  simp only [Nat.testBit_land, Nat.testBit_lor, Nat.testBit_two_pow_sub_one,
    testBit_addrMask]
  rcases Nat.lt_or_ge i 5 with hi | hi
  · simp [hi, show ¬ 10 ≤ i by omega]
  · simp [show ¬ i < 5 by omega]

/-- Reading the physical address out of a freshly built entry recovers the
page-aligned 32-bit address that was stored. -/
theorem entryPhysicalAddr_fromAddrFlags (addr f : Nat)
    (ha : addr < U32) (hal : addr % PAGE_SIZE = 0) :
    entryPhysicalAddr (fromAddrFlags addr f) = addr := by
  have hq : addr / PAGE_SIZE < 2 ^ 22 := by
    have : addr / PAGE_SIZE < U32 / PAGE_SIZE + 1 := by
      have := Nat.div_le_div_right (c := PAGE_SIZE) (Nat.le_of_lt ha)
      omega
    norm_num [U32, PAGE_SIZE] at this ⊢
    omega
  have hmod : ((addr / PAGE_SIZE) <<< ADDR_SHIFT) % U32
      = (addr / PAGE_SIZE) <<< ADDR_SHIFT := by
    apply Nat.mod_eq_of_lt
    rw [Nat.shiftLeft_eq]
    calc addr / PAGE_SIZE * 2 ^ ADDR_SHIFT < 2 ^ 22 * 2 ^ ADDR_SHIFT := by
          have hpos : (0 : Nat) < 2 ^ ADDR_SHIFT := by norm_num [ADDR_SHIFT]
          exact (Nat.mul_lt_mul_right hpos).mpr hq
      _ ≤ U32 := by norm_num [ADDR_SHIFT, U32]
  have hmask : fromAddrFlags addr f &&& ADDR_MASK
      = (addr / PAGE_SIZE) <<< ADDR_SHIFT := by
    unfold fromAddrFlags
    rw [hmod]
    apply Nat.eq_of_testBit_eq
    intro i
    rw [flagsMask_eq]
    simp only [Nat.testBit_land, Nat.testBit_lor, Nat.testBit_two_pow_sub_one,
      testBit_addrMask, Nat.testBit_shiftLeft, ADDR_SHIFT]
    rcases Nat.lt_or_ge i 10 with hi | hi
    · simp [show ¬ 10 ≤ i by omega]
    · rcases Nat.lt_or_ge i 32 with h32 | h32
      · simp [hi, h32, show ¬ i < 5 by omega]
      · have hhi : (addr / PAGE_SIZE).testBit (i - 10) = false := by
          apply Nat.testBit_eq_false_of_lt
          calc addr / PAGE_SIZE < 2 ^ 22 := hq
            _ ≤ 2 ^ (i - 10) := Nat.pow_le_pow_right (by norm_num) (by omega)
        simp [hi, hhi, show ¬ i < 32 by omega, show ¬ i < 5 by omega]
  unfold entryPhysicalAddr
  rw [hmask, Nat.shiftLeft_eq, Nat.shiftRight_eq_div_pow,
    Nat.mul_div_cancel _ (by norm_num [ADDR_SHIFT] : 0 < 2 ^ ADDR_SHIFT)]
  exact Nat.div_mul_cancel (Nat.dvd_of_mod_eq_zero hal)

/-- Masking flags below 32 is the identity. -/
theorem flags_land_mask_self (f : Nat) (hf : f < 32) : f &&& FLAGS_MASK = f := by
  rw [flagsMask_eq, Nat.and_pow_two_sub_one_eq_mod]
  exact Nat.mod_eq_of_lt hf

/-- Reading back the entry just written. -/
theorem PTHeap.write_self (h : PTHeap) (b i v : Nat) : (h.write b i v) b i = v := by
  simp [PTHeap.write]

/-- Reading another table is unaffected by a write. -/
theorem PTHeap.write_ne_base (h : PTHeap) (b i v b' i' : Nat) (hb : b' ≠ b) :
    (h.write b i v) b' i' = h b' i' := by
  simp [PTHeap.write, hb]

/-- Reading another index of the same table is unaffected by a write. -/
theorem PTHeap.write_ne_idx (h : PTHeap) (b i v b' i' : Nat) (hi : i' ≠ i) :
    (h.write b i v) b' i' = h b' i' := by
  simp [PTHeap.write, hi]

/-- Reading the zeroed table gives empty entries. -/
theorem PTHeap.zeroTable_self (h : PTHeap) (b i : Nat) : (h.zeroTable b) b i = 0 := by
  simp [PTHeap.zeroTable]

/-- Reading another table is unaffected by zeroing. -/
theorem PTHeap.zeroTable_ne (h : PTHeap) (b b' i : Nat) (hb : b' ≠ b) :
    (h.zeroTable b) b' i = h b' i := by
  simp [PTHeap.zeroTable, hb]

/-- The contains_any test against the nonempty R/W/X/U mask always succeeds
(the bitset source uses a bitwise or). -/
theorem bitsContainsAny_rwxu (f : Nat) :
    bitsContainsAny f (FLAG_READABLE ||| FLAG_WRITABLE ||| FLAG_EXECUTABLE ||| FLAG_USER)
      = true := by
  unfold bitsContainsAny FLAG_READABLE FLAG_WRITABLE FLAG_EXECUTABLE FLAG_USER
  simp only [ne_eq, decide_eq_true_eq]
  intro hzero
  have hbit := congrArg (fun x => Nat.testBit x 1) hzero
  simp [Nat.testBit_lor] at hbit
  exact absurd hbit.2 (by decide)

/-- An entry whose flags had the Valid bit or-ed in contains the Valid bit. -/
theorem bitsContains_lor_valid (f : Nat) :
    bitsContains (f ||| FLAG_VALID) FLAG_VALID = true := by
  unfold bitsContains FLAG_VALID
  simp only [decide_eq_true_eq]
  apply Nat.eq_of_testBit_eq
  intro i
  rcases i with - | i
  · simp [Nat.testBit_land, Nat.testBit_lor]
  · have h1 : Nat.testBit 1 (i + 1) = false := Nat.testBit_eq_false_of_lt (by
      calc (1 : Nat) < 2 ^ 1 := by norm_num
        _ ≤ 2 ^ (i + 1) := Nat.pow_le_pow_right (by norm_num) (by omega))
    simp only [Nat.testBit_land, h1, Bool.and_false]

/-- Adding the Valid bit keeps the flags within the five flag bits. -/
theorem lor_valid_lt_32 (f : Nat) (hf : f < 32) : f ||| FLAG_VALID < 32 := by
  have h2 : f ||| 1 < 2 ^ 5 := @Nat.or_lt_two_pow f 1 5 (by omega) (by norm_num)
  unfold FLAG_VALID
  omega

/-- Claim C4: for every page table, page-aligned virtual address v,
page-aligned 32-bit physical address p and flag set f, in a well-formed state
(valid first-level entries point away from the root, and the root sits below
the allocator cursor), if map_page succeeds then walking the table for v
yields an entry holding physical address p with flags f or-ed with Valid; and
if the leaf entry for v was already Valid the call panics on its assertion. -/
theorem map_page_walk (L : MemLayout) (a : PageAllocSt) (h : PTHeap)
    (rootAddr vaddr paddr flags : Nat)
    (hva : vaddr % PAGE_SIZE = 0) (hpa : paddr % PAGE_SIZE = 0)
    (hplt : paddr < U32) (hf : flags < 32)
    (hG : GoodAlloc L a) (hEnd : PAGE_SIZE + L.freeRamEnd < U32)
    (hRootLt : rootAddr < a.cursor)
    (hNoAlias : bitsContains (entryFlags (h rootAddr (vpn1Of vaddr))) FLAG_VALID = true →
      entryPhysicalAddr (h rootAddr (vpn1Of vaddr)) ≠ rootAddr) :
    (∀ a₂ h₂, mapPage L a h rootAddr vaddr paddr flags = .ok (a₂, h₂) →
      ∃ e, entryForVaddr h₂ (some rootAddr) vaddr = .entry e ∧
        entryPhysicalAddr e = paddr ∧ entryFlags e = flags ||| FLAG_VALID) ∧
    (bitsContains (entryFlags (h rootAddr (vpn1Of vaddr))) FLAG_VALID = true →
      bitsContains (entryFlags (h (entryPhysicalAddr (h rootAddr (vpn1Of vaddr)))
          (vpn0Of vaddr))) FLAG_VALID = true →
      mapPage L a h rootAddr vaddr paddr flags = .panicked) := by
  have hflagsE : entryFlags (fromAddrFlags paddr (flags ||| FLAG_VALID))
      = flags ||| FLAG_VALID := by
    rw [entryFlags_fromAddrFlags, flags_land_mask_self _ (lor_valid_lt_32 flags hf)]
  have hpaE : entryPhysicalAddr (fromAddrFlags paddr (flags ||| FLAG_VALID)) = paddr :=
    entryPhysicalAddr_fromAddrFlags _ _ hplt hpa
  constructor
  · intro a₂ h₂ hok
    unfold mapPage at hok
    rw [if_neg (by simp [hpa]), if_neg (by simp [hva])] at hok
    by_cases hv1 : bitsContains (entryFlags (h rootAddr (vpn1Of vaddr))) FLAG_VALID = true
    · rw [if_neg (by simp [hv1])] at hok
      unfold mapPageLeaf at hok
      split at hok
      · simp at hok
      · rename_i hleaf
        obtain ⟨ha₂, hh₂⟩ : a = a₂ ∧
            h.write (entryPhysicalAddr (h rootAddr (vpn1Of vaddr))) (vpn0Of vaddr)
              (fromAddrFlags paddr (flags ||| FLAG_VALID)) = h₂ := by
          cases hok; exact ⟨rfl, rfl⟩
        refine ⟨_, ?_, hpaE, hflagsE⟩
        subst hh₂
        have hne : rootAddr ≠ entryPhysicalAddr (h rootAddr (vpn1Of vaddr)) :=
          Ne.symm (hNoAlias hv1)
        have he1 : (h.write (entryPhysicalAddr (h rootAddr (vpn1Of vaddr))) (vpn0Of vaddr)
            (fromAddrFlags paddr (flags ||| FLAG_VALID))) rootAddr (vpn1Of vaddr)
            = h rootAddr (vpn1Of vaddr) :=
          PTHeap.write_ne_base _ _ _ _ _ _ hne
        simp only [entryForVaddr]
        rw [he1, if_neg (by simp [hv1]), if_neg (by simp [bitsContainsAny_rwxu])]
        rw [PTHeap.write_self]
    · rw [if_pos (by simp [hv1])] at hok
      rcases hA : allocPages L a 1 with ⟨np, a₁⟩ | e | -
      · rw [hA] at hok
        obtain ⟨hnp, hcur, hfreed, hle⟩ :=
          allocPages_ok L a 1 np a₁ hG.2.2 (by rw [Nat.mul_one]; exact hEnd) hA
        have hnpAl : np % PAGE_SIZE = 0 := by
          rw [hnp]; exact Nat.mod_eq_zero_of_dvd hG.1
        have hnpLt : np < U32 := by
          have h22 := hG.2.2
          unfold PAGE_SIZE at hEnd
          omega
        have hrne : rootAddr ≠ np := by omega
        simp only at hok
        have he1 : ((h.write rootAddr (vpn1Of vaddr)
            (fromAddrFlags np FLAG_VALID)).zeroTable np) rootAddr (vpn1Of vaddr)
            = fromAddrFlags np FLAG_VALID := by
          rw [PTHeap.zeroTable_ne _ _ _ _ hrne, PTHeap.write_self]
        have hpe1 : entryPhysicalAddr (fromAddrFlags np FLAG_VALID) = np :=
          entryPhysicalAddr_fromAddrFlags _ _ hnpLt hnpAl
        have hfe1 : entryFlags (fromAddrFlags np FLAG_VALID) = FLAG_VALID := by
          rw [entryFlags_fromAddrFlags, flags_land_mask_self _ (by norm_num [FLAG_VALID])]
        unfold mapPageLeaf at hok
        rw [he1, hpe1] at hok
        rw [if_neg (by rw [PTHeap.zeroTable_self]; decide)] at hok
        obtain ⟨ha₂, hh₂⟩ : a₁ = a₂ ∧
            ((h.write rootAddr (vpn1Of vaddr)
              (fromAddrFlags np FLAG_VALID)).zeroTable np).write np (vpn0Of vaddr)
              (fromAddrFlags paddr (flags ||| FLAG_VALID)) = h₂ := by
          cases hok; exact ⟨rfl, rfl⟩
        refine ⟨_, ?_, hpaE, hflagsE⟩
        subst hh₂
        have he1b : (((h.write rootAddr (vpn1Of vaddr)
            (fromAddrFlags np FLAG_VALID)).zeroTable np).write np (vpn0Of vaddr)
            (fromAddrFlags paddr (flags ||| FLAG_VALID))) rootAddr (vpn1Of vaddr)
            = fromAddrFlags np FLAG_VALID := by
          rw [PTHeap.write_ne_base _ _ _ _ _ _ hrne, he1]
        simp only [entryForVaddr]
        rw [he1b, if_neg (by simp [hfe1, bitsContains_lor_valid]; decide),
          if_neg (by simp [bitsContainsAny_rwxu]), hpe1]
        rw [PTHeap.write_self]
      · rw [hA] at hok; simp at hok
      · rw [hA] at hok; simp at hok
  · intro hv1 hleaf
    unfold mapPage
    rw [if_neg (by simp [hpa]), if_neg (by simp [hva]), if_neg (by simp [hv1])]
    unfold mapPageLeaf
    rw [if_pos hleaf]

/-- Witness for map_page_walk: mapping user vaddr 0x01000000 to physical
0x02000000 with Readable and UserAccessible flags in an all-empty table
rooted at 0x80000000, allocator cursor at 0x80001000. -/
theorem map_page_walk_witness :
    (∀ a₂ h₂, mapPage ⟨0x80000000, 0x80100000⟩ ⟨0x80001000, []⟩ (fun _ _ => 0)
        0x80000000 0x01000000 0x02000000 (FLAG_READABLE ||| FLAG_USER)
        = .ok (a₂, h₂) →
      ∃ e, entryForVaddr h₂ (some 0x80000000) 0x01000000 = .entry e ∧
        entryPhysicalAddr e = 0x02000000 ∧
        entryFlags e = (FLAG_READABLE ||| FLAG_USER) ||| FLAG_VALID) ∧
    (bitsContains (entryFlags ((fun _ _ => (0 : Nat)) 0x80000000
        (vpn1Of 0x01000000))) FLAG_VALID = true →
      bitsContains (entryFlags ((fun _ _ => (0 : Nat))
          (entryPhysicalAddr ((fun _ _ => (0 : Nat)) 0x80000000 (vpn1Of 0x01000000)))
          (vpn0Of 0x01000000))) FLAG_VALID = true →
      mapPage ⟨0x80000000, 0x80100000⟩ ⟨0x80001000, []⟩ (fun _ _ => 0)
        0x80000000 0x01000000 0x02000000 (FLAG_READABLE ||| FLAG_USER) = .panicked) :=
  map_page_walk ⟨0x80000000, 0x80100000⟩ ⟨0x80001000, []⟩ (fun _ _ => 0)
    0x80000000 0x01000000 0x02000000 (FLAG_READABLE ||| FLAG_USER)
    (by decide) (by decide) (by norm_num [U32]) (by decide)
    ⟨by decide, by norm_num, by norm_num⟩ (by norm_num [PAGE_SIZE, U32])
    (by norm_num) (by decide)

/-- Membership in the page list visited by check_range_has_flags: exactly the
page-aligned addresses from the start address rounded down to a page boundary
up to (excluding) the end of the range. -/
theorem mem_pagesInRange (p addr len : Nat) :
    p ∈ pagesInRange addr len ↔
      PAGE_SIZE ∣ p ∧ addr / PAGE_SIZE * PAGE_SIZE ≤ p ∧ p < addr + len := by
  simp only [pagesInRange, PAGE_SIZE, List.mem_map, List.mem_range]
  constructor
  · rintro ⟨k, hk, rfl⟩
    refine ⟨by omega, by omega, by omega⟩
  · rintro ⟨hdvd, hge, hlt⟩
    exact ⟨(p - addr / 4096 * 4096) / 4096, by omega, by omega⟩

/-- check_range_has_flags succeeds exactly when every page from the aligned
start of the range to its end walks to an entry with all requested flags. -/
theorem checkRangeHasFlags_iff (h : PTHeap) (root : Option Nat) (addr len flags : Nat) :
    checkRangeHasFlags h root addr len flags = true ↔
      ∀ p, PAGE_SIZE ∣ p → addr / PAGE_SIZE * PAGE_SIZE ≤ p → p < addr + len →
        walkHasFlags h root p flags := by
  unfold checkRangeHasFlags
  rw [List.all_eq_true]
  constructor
  · intro hall p hdvd hge hlt
    have hp := hall p (by rw [mem_pagesInRange]; exact ⟨hdvd, hge, hlt⟩)
    revert hp
    rcases hw : entryForVaddr h root p with - | - | - | e <;> simp [hw, walkHasFlags]
  · intro hptwise p hp
    rw [mem_pagesInRange] at hp
    obtain ⟨e, hw, hc⟩ := hptwise p hp.1 hp.2.1 hp.2.2
    rw [hw]
    exact hc

/-- Claim C6 (amended): UserMemRef::for_region(r) returns Some exactly when
every page whose base address lies between the start of r rounded down to a
page boundary and the end of r has Valid, UserAccessible and Readable set
(reachably mapped) in the walked table, and UserMemMut::for_region
additionally requires Writable; for a nonempty range these pages are exactly
the pages overlapping r, but for an empty range at an address that is not
page-aligned the page containing the start address is still checked. -/
theorem user_mem_for_region_iff (h : PTHeap) (root : Option Nat) (addr len : Nat) :
    ((UserMemRef.forRegion h root addr len).isSome = true ↔
      ∀ p, PAGE_SIZE ∣ p → addr / PAGE_SIZE * PAGE_SIZE ≤ p → p < addr + len →
        walkHasFlags h root p (FLAG_VALID ||| FLAG_USER ||| FLAG_READABLE)) ∧
    ((UserMemMut.forRegion h root addr len).isSome = true ↔
      ∀ p, PAGE_SIZE ∣ p → addr / PAGE_SIZE * PAGE_SIZE ≤ p → p < addr + len →
        walkHasFlags h root p
          (FLAG_VALID ||| FLAG_USER ||| FLAG_READABLE ||| FLAG_WRITABLE)) ∧
    (0 < len → ∀ p,
      (PAGE_SIZE ∣ p ∧ addr / PAGE_SIZE * PAGE_SIZE ≤ p ∧ p < addr + len) ↔
        pageOverlaps p addr len) := by
  refine ⟨?_, ?_, ?_⟩
  · rw [← checkRangeHasFlags_iff]
    unfold UserMemRef.forRegion
    split <;> simp_all
  · rw [← checkRangeHasFlags_iff]
    unfold UserMemMut.forRegion
    split <;> simp_all
  · intro hlen p
    constructor
    · rintro ⟨hdvd, hge, hlt⟩
      refine ⟨hdvd, max p addr, ?_, ?_, ?_, ?_⟩ <;>
        simp only [PAGE_SIZE] at * <;> omega
    · rintro ⟨hdvd, x, h1, h2, h3, h4⟩
      refine ⟨hdvd, ?_, ?_⟩ <;> simp only [PAGE_SIZE] at * <;> omega

/-- Claim C6 counterexample: an empty byte range at the unaligned address
0x1001 overlaps no page at all, yet for_region still checks the page
containing the start address and returns None over an unmapped table, where
the claim as stated would demand Some. -/
theorem user_mem_ref_empty_range_counterexample :
    UserMemRef.forRegion (fun _ _ => 0) (some 0x1000) 0x1001 0 = none ∧
    ∀ p, ¬ pageOverlaps p 0x1001 0 := by
  constructor
  · decide
  · rintro p ⟨hdvd, x, h1, h2, h3, h4⟩
    omega

/-- Witness for user_mem_for_region_iff on a concrete mapped region. -/
theorem user_mem_for_region_iff_witness :
    (∀ p, PAGE_SIZE ∣ p → 0x01000000 / PAGE_SIZE * PAGE_SIZE ≤ p →
        p < 0x01000000 + 100 →
        walkHasFlags demoHeap (some 0x1000) p
          (FLAG_VALID ||| FLAG_USER ||| FLAG_READABLE)) ∧
    (∀ p, (PAGE_SIZE ∣ p ∧ 0x01000000 / PAGE_SIZE * PAGE_SIZE ≤ p ∧
        p < 0x01000000 + 100) ↔ pageOverlaps p 0x01000000 100) :=
  ⟨(user_mem_for_region_iff demoHeap (some 0x1000) 0x01000000 100).1.mp (by decide),
   (user_mem_for_region_iff demoHeap (some 0x1000) 0x01000000 100).2.2 (by decide)⟩

/-- Claim C10: a Close syscall whose descriptor argument a1 is at least 1024
(the size of the resource-descriptor table) panics the kernel on the bounds
assert instead of returning -1 with an ErrorKind. -/
theorem close_out_of_range_panics (L : MemLayout) (k : Kern) (f : Frame)
    (h0 : f.a0 = 8) (h1 : 1024 ≤ f.a1) :
    handleSyscall L k f = .panicked := by
  unfold handleSyscall
  have hn3 : ¬ f.a0 = 3 := by omega
  have hn4 : ¬ f.a0 = 4 := by omega
  have hn5 : ¬ f.a0 = 5 := by omega
  have hn6 : ¬ f.a0 = 6 := by omega
  have hn7 : ¬ f.a0 = 7 := by omega
  rw [if_neg hn3, if_neg hn4, if_neg hn5, if_neg hn6, if_neg hn7, if_pos h0,
    if_pos (by omega)]

/-- Witness for close_out_of_range_panics at descriptor number 1024. -/
theorem close_out_of_range_panics_witness :
    handleSyscall layout0 kern0 ⟨8, 1024, 0, 0⟩ = .panicked :=
  close_out_of_range_panics layout0 kern0 ⟨8, 1024, 0, 0⟩ (by decide) (by decide)

/-- Claim C2 (evaluating the code at the failing input): after the device
completes one request it has written the completion element into
used.ring[0] and advanced used.index to equal available.index = 1; the
busy-poll then observes the equality, but run_descriptor reads
used.ring[used.index % 16] = used.ring[1] and returns the empty element,
not the completion element sitting at used.ring[(used.index - 1) % 16]. -/
theorem run_descriptor_reads_wrong_used_slot :
    ((runDescriptor ⟨⟨0, 0, fun _ => 0⟩, ⟨0, 0, fun _ => ⟨0, 0⟩⟩⟩
        (fun q => ⟨q.available, ⟨0, 1, fun i => if i = 0 then ⟨0, 512⟩ else ⟨0, 0⟩⟩⟩)
        0).2.used.index
      = (runDescriptor ⟨⟨0, 0, fun _ => 0⟩, ⟨0, 0, fun _ => ⟨0, 0⟩⟩⟩
        (fun q => ⟨q.available, ⟨0, 1, fun i => if i = 0 then ⟨0, 512⟩ else ⟨0, 0⟩⟩⟩)
        0).2.available.index) ∧
    (runDescriptor ⟨⟨0, 0, fun _ => 0⟩, ⟨0, 0, fun _ => ⟨0, 0⟩⟩⟩
        (fun q => ⟨q.available, ⟨0, 1, fun i => if i = 0 then ⟨0, 512⟩ else ⟨0, 0⟩⟩⟩)
        0).1 = ⟨0, 0⟩ ∧
    (runDescriptor ⟨⟨0, 0, fun _ => 0⟩, ⟨0, 0, fun _ => ⟨0, 0⟩⟩⟩
        (fun q => ⟨q.available, ⟨0, 1, fun i => if i = 0 then ⟨0, 512⟩ else ⟨0, 0⟩⟩⟩)
        0).2.used.ring
      (((runDescriptor ⟨⟨0, 0, fun _ => 0⟩, ⟨0, 0, fun _ => ⟨0, 0⟩⟩⟩
        (fun q => ⟨q.available, ⟨0, 1, fun i => if i = 0 then ⟨0, 512⟩ else ⟨0, 0⟩⟩⟩)
        0).2.used.index - 1) % QUEUE_SIZE) = ⟨0, 512⟩ := by
  refine ⟨rfl, rfl, rfl⟩

/-- Claim C1 (evaluating the code at the failing input): on a 2-byte file
opened Present and Readable at offset 0, the file vtable read delegates to
read_file_from_offset and returns both bytes, but leaves the stored offset
at 0, so an immediately repeated read returns the same two bytes instead of
the next region of the file. -/
theorem file_read_does_not_advance_offset :
    rdescRead diskFile 97 (.file 3 1 0) 2 = (.ok (2, [170, 187]), .file 3 1 0) ∧
    rdescRead diskFile 97 ((rdescRead diskFile 97 (.file 3 1 0) 2).2) 2
      = (.ok (2, [170, 187]), .file 3 1 0) := by
  refine ⟨?_, ?_⟩ <;> rfl

/-- A path that is not valid UTF-8 fails Open with InvalidFormat. -/
theorem syscallOpen_not_utf8 (L : MemLayout) (k : Kern) (p : List Nat) (fl : Nat)
    (h : validUtf8 p = false) :
    syscallOpen L k p fl = (.err .InvalidFormat, k) := by
  unfold syscallOpen
  rw [if_pos (by simp [h])]

/-- A UTF-8 path that does not start with a slash fails Open with
InvalidFormat. -/
theorem syscallOpen_no_slash (L : MemLayout) (k : Kern) (p : List Nat) (fl : Nat)
    (hv : validUtf8 p = true) (h : p.head? ≠ some 47) :
    syscallOpen L k p fl = (.err .InvalidFormat, k) := by
  unfold syscallOpen
  rw [if_neg (by simp [hv])]
  split
  · simp at h
  · rfl

/-- A well-formed path whose lookup fails gives NotFound, provided a
descriptor slot is free (the slot search runs before the lookup). -/
theorem syscallOpen_notfound (L : MemLayout) (k : Kern) (rest : List Nat) (fl : Nat)
    (hv : validUtf8 (47 :: rest) = true)
    (hfree : ∃ i, i < 1024 ∧ k.rds i = none)
    (hlook : lookupPath k.disk (splitSlash rest) 2 = some (.ok none)) :
    syscallOpen L k (47 :: rest) fl = (.err .NotFound, k) := by
  unfold syscallOpen
  rw [if_neg (by simp [hv])]
  have hfind : ((List.range 1024).find? (fun i => (k.rds i).isNone)).isSome = true := by
    rw [List.find?_isSome]
    obtain ⟨i, hi, hnone⟩ := hfree
    exact ⟨i, by simp [List.mem_range, hi], by simp [hnone]⟩
  rcases hfd : (List.range 1024).find? (fun i => (k.rds i).isNone) with - | descNum
  · rw [hfd] at hfind
    simp at hfind
  · simp only [hlook]

/-- When every descriptor slot is occupied, a well-formed Open fails with
LimitReached (before the path is even looked up). -/
theorem syscallOpen_limit (L : MemLayout) (k : Kern) (rest : List Nat) (fl : Nat)
    (hv : validUtf8 (47 :: rest) = true)
    (hfull : ∀ i, i < 1024 → (k.rds i).isSome = true) :
    syscallOpen L k (47 :: rest) fl = (.err .LimitReached, k) := by
  unfold syscallOpen
  rw [if_neg (by simp [hv])]
  have hfind : (List.range 1024).find? (fun i => (k.rds i).isNone) = none := by
    rw [List.find?_eq_none]
    intro i hi
    simp only [List.mem_range] at hi
    simp [Option.isNone_iff_eq_none]
    intro hcontra
    have := hfull i hi
    rw [hcontra] at this
    simp at this
  rw [hfind]

/-- The Open arm of the dispatcher with a validated path buffer reduces to
encoding the result of syscall_open. -/
theorem handleSyscall_open_eq (L : MemLayout) (k : Kern) (f : Frame)
    (h0 : f.a0 = 7)
    (hreg : UserMemRef.forRegion k.heap k.rootTable f.a1 f.a2 = some (f.a1, f.a2)) :
    handleSyscall L k f =
      (match syscallOpen L k (userBytes k f.a1 f.a2) f.a3 with
       | (.ok desc, k') => SysRes.ok { f with a1 := desc } k'
       | (.err e, k') => SysRes.ok { f with a1 := U32 - 1, a2 := e.code } k'
       | (.panicked, _) => SysRes.panicked
       | (.hung, _) => SysRes.hung) := by
  unfold handleSyscall
  have hn3 : ¬ f.a0 = 3 := by omega
  have hn4 : ¬ f.a0 = 4 := by omega
  have hn5 : ¬ f.a0 = 5 := by omega
  have hn6 : ¬ f.a0 = 6 := by omega
  rw [if_neg hn3, if_neg hn4, if_neg hn5, if_neg hn6, if_pos h0, hreg]
  rcases syscallOpen L k (userBytes k f.a1 f.a2) f.a3 with ⟨r, k'⟩
  rcases r with desc | e | - | - <;> rfl

/-- Claim C9: for every Open syscall with a validated path buffer holding
bytes p: when p is not valid UTF-8 or does not start with a slash, the call
returns a1 = -1 with ErrorKind InvalidFormat; when p is well-formed, a slot
is free, and the path lookup fails, it returns a1 = -1 with NotFound; and
when no resource-descriptor slot is free (and p is well-formed) it returns
a1 = -1 with LimitReached. -/
theorem open_error_paths (L : MemLayout) (k : Kern) (f : Frame) (p : List Nat)
    (h0 : f.a0 = 7)
    (hreg : UserMemRef.forRegion k.heap k.rootTable f.a1 f.a2 = some (f.a1, f.a2))
    (hp : userBytes k f.a1 f.a2 = p) :
    (validUtf8 p = false ∨ p.head? ≠ some 47 →
      handleSyscall L k f
        = .ok { f with a1 := U32 - 1, a2 := ErrorKind.InvalidFormat.code } k) ∧
    (∀ rest, p = 47 :: rest → validUtf8 p = true →
      (∃ i, i < 1024 ∧ k.rds i = none) →
      lookupPath k.disk (splitSlash rest) 2 = some (.ok none) →
      handleSyscall L k f
        = .ok { f with a1 := U32 - 1, a2 := ErrorKind.NotFound.code } k) ∧
    (∀ rest, p = 47 :: rest → validUtf8 p = true →
      (∀ i, i < 1024 → (k.rds i).isSome = true) →
      handleSyscall L k f
        = .ok { f with a1 := U32 - 1, a2 := ErrorKind.LimitReached.code } k) := by
  rw [handleSyscall_open_eq L k f h0 hreg, hp]
  refine ⟨?_, ?_, ?_⟩
  · intro hbad
    rcases hval : validUtf8 p with - | -
    · rw [syscallOpen_not_utf8 L k p f.a3 hval]
    · rcases hbad with hbad | hbad
      · rw [hval] at hbad
        simp at hbad
      · rw [syscallOpen_no_slash L k p f.a3 hval hbad]
  · intro rest hrest hval hfree hlook
    subst hrest
    rw [syscallOpen_notfound L k rest f.a3 hval hfree hlook]
  · intro rest hrest hval hfull
    subst hrest
    rw [syscallOpen_limit L k rest f.a3 hval hfull]

/-- Witness for open_error_paths: Open("relative") gives InvalidFormat,
Open("/zzz") gives NotFound, and Open("/zzz") with a full table gives
LimitReached. -/
theorem open_error_paths_witness :
    handleSyscall layout0 kernOpenA ⟨7, 0x01000000, 8, 1⟩
      = .ok ⟨7, U32 - 1, ErrorKind.InvalidFormat.code, 1⟩ kernOpenA ∧
    handleSyscall layout0 kernOpenB ⟨7, 0x01000000, 4, 1⟩
      = .ok ⟨7, U32 - 1, ErrorKind.NotFound.code, 1⟩ kernOpenB ∧
    handleSyscall layout0 kernOpenC ⟨7, 0x01000000, 4, 1⟩
      = .ok ⟨7, U32 - 1, ErrorKind.LimitReached.code, 1⟩ kernOpenC := by
  refine ⟨?_, ?_, ?_⟩
  · exact (open_error_paths layout0 kernOpenA ⟨7, 0x01000000, 8, 1⟩
      [114, 101, 108, 97, 116, 105, 118, 101] rfl (by decide) (by decide)).1
      (Or.inr (by decide))
  · exact (open_error_paths layout0 kernOpenB ⟨7, 0x01000000, 4, 1⟩
      [47, 122, 122, 122] rfl (by decide) (by decide)).2.1
      [122, 122, 122] rfl (by decide) ⟨0, by decide, rfl⟩ (by decide)
  · exact (open_error_paths layout0 kernOpenC ⟨7, 0x01000000, 4, 1⟩
      [47, 122, 122, 122] rfl (by decide) (by decide)).2.2
      [122, 122, 122] rfl (by decide) (fun i _ => rfl)

/-- syscall_mmap panics when the zeroed allocation fails: the result of
alloc_pages_zeroed is unwrapped. -/
theorem syscallMmap_alloc_err (L : MemLayout) (k : Kern) (s root : Nat) (e : ErrorKind)
    (hroot : k.rootTable = some root)
    (herr : allocPages L k.alloc ((s + PAGE_SIZE - 1) / PAGE_SIZE) = .err e) :
    syscallMmap L k s = (.panicked, k) := by
  simp only [syscallMmap, hroot, herr]

/-- Claim C3 (amended): errors returned while servicing Open, Close (with an
in-range descriptor), Read and Write are encoded into the trap frame as -1
in a1 plus the ErrorKind code in a2; but Mmap panics via unwrap when
alloc_pages_zeroed fails, and GetRandom panics via unwrap when read_random
fails. -/
theorem syscall_error_encoding (L : MemLayout) (k : Kern) (f : Frame) :
    (∀ root e, f.a0 = 11 → k.rootTable = some root →
      allocPages L k.alloc ((f.a1 + PAGE_SIZE - 1) / PAGE_SIZE) = .err e →
      handleSyscall L k f = .panicked) ∧
    (∀ v e, f.a0 = 6 →
      userMemMutOpaqueForRegion k.heap k.rootTable f.a1 f.a2 = some v →
      readRandom k.rng f.a2 = .err e →
      handleSyscall L k f = .panicked) ∧
    (∀ e k', f.a0 = 7 →
      UserMemRef.forRegion k.heap k.rootTable f.a1 f.a2 = some (f.a1, f.a2) →
      syscallOpen L k (userBytes k f.a1 f.a2) f.a3 = (.err e, k') →
      handleSyscall L k f = .ok { f with a1 := U32 - 1, a2 := e.code } k') ∧
    (f.a0 = 8 → f.a1 < 1024 → k.rds f.a1 = none →
      handleSyscall L k f
        = .ok { f with a1 := U32 - 1, a2 := ErrorKind.NotFound.code } k) ∧
    (∀ e k', f.a0 = 9 →
      UserMemMut.forRegion k.heap k.rootTable f.a2 f.a3 = some (f.a2, f.a3) →
      syscallRead k f.a1 f.a3 = (.err e, k') →
      handleSyscall L k f = .ok { f with a1 := U32 - 1, a2 := e.code } k') ∧
    (∀ e k', f.a0 = 10 →
      UserMemRef.forRegion k.heap k.rootTable f.a2 f.a3 = some (f.a2, f.a3) →
      syscallWrite k f.a1 (userBytes k f.a2 f.a3) = (.err e, k') →
      handleSyscall L k f = .ok { f with a1 := U32 - 1, a2 := e.code } k') := by
  refine ⟨?_, ?_, ?_, ?_, ?_, ?_⟩
  · intro root e h0 hroot herr
    unfold handleSyscall
    have hn3 : ¬ f.a0 = 3 := by omega
    have hn4 : ¬ f.a0 = 4 := by omega
    have hn5 : ¬ f.a0 = 5 := by omega
    have hn6 : ¬ f.a0 = 6 := by omega
    have hn7 : ¬ f.a0 = 7 := by omega
    have hn8 : ¬ f.a0 = 8 := by omega
    have hn9 : ¬ f.a0 = 9 := by omega
    have hn10 : ¬ f.a0 = 10 := by omega
    rw [if_neg hn3, if_neg hn4, if_neg hn5, if_neg hn6, if_neg hn7, if_neg hn8,
      if_neg hn9, if_neg hn10, if_pos h0,
      syscallMmap_alloc_err L k f.a1 root e hroot herr]
  · intro v e h0 hval herr
    unfold handleSyscall
    have hn3 : ¬ f.a0 = 3 := by omega
    have hn4 : ¬ f.a0 = 4 := by omega
    have hn5 : ¬ f.a0 = 5 := by omega
    rw [if_neg hn3, if_neg hn4, if_neg hn5, if_pos h0, hval, herr]
  · intro e k' h0 hreg hopen
    rw [handleSyscall_open_eq L k f h0 hreg, hopen]
  · intro h0 hlt hnone
    unfold handleSyscall
    have hn3 : ¬ f.a0 = 3 := by omega
    have hn4 : ¬ f.a0 = 4 := by omega
    have hn5 : ¬ f.a0 = 5 := by omega
    have hn6 : ¬ f.a0 = 6 := by omega
    have hn7 : ¬ f.a0 = 7 := by omega
    rw [if_neg hn3, if_neg hn4, if_neg hn5, if_neg hn6, if_neg hn7, if_pos h0,
      if_neg (by omega), hnone]
  · intro e k' h0 hreg hread
    unfold handleSyscall
    have hn3 : ¬ f.a0 = 3 := by omega
    have hn4 : ¬ f.a0 = 4 := by omega
    have hn5 : ¬ f.a0 = 5 := by omega
    have hn6 : ¬ f.a0 = 6 := by omega
    have hn7 : ¬ f.a0 = 7 := by omega
    have hn8 : ¬ f.a0 = 8 := by omega
    rw [if_neg hn3, if_neg hn4, if_neg hn5, if_neg hn6, if_neg hn7, if_neg hn8,
      if_pos h0, hreg, hread]
  · intro e k' h0 hreg hwrite
    unfold handleSyscall
    have hn3 : ¬ f.a0 = 3 := by omega
    have hn4 : ¬ f.a0 = 4 := by omega
    have hn5 : ¬ f.a0 = 5 := by omega
    have hn6 : ¬ f.a0 = 6 := by omega
    have hn7 : ¬ f.a0 = 7 := by omega
    have hn8 : ¬ f.a0 = 8 := by omega
    have hn9 : ¬ f.a0 = 9 := by omega
    rw [if_neg hn3, if_neg hn4, if_neg hn5, if_neg hn6, if_neg hn7, if_neg hn8,
      if_neg hn9, if_pos h0, hreg, hwrite]

/-- Claim C3 counterexample: an out-of-memory Mmap and a failing-device
GetRandom both panic the kernel instead of returning -1 with an ErrorKind
in the trap frame. -/
theorem mmap_getrandom_panic_on_error :
    handleSyscall layout0 kernOOM ⟨11, 4096, 0, 0⟩ = .panicked ∧
    handleSyscall layout0 kernRng ⟨6, 0x01000000, 16, 0⟩ = .panicked := by
  exact ⟨rfl, rfl⟩

/-- Witness for syscall_error_encoding across its six conjuncts, each at a
concrete state and frame. -/
theorem syscall_error_encoding_witness :
    handleSyscall layout0 kernOOM ⟨11, 4096, 0, 0⟩ = .panicked ∧
    handleSyscall layout0 kernRng ⟨6, 0x01000000, 16, 0⟩ = .panicked ∧
    handleSyscall layout0 kernOpenA ⟨7, 0x01000000, 8, 1⟩
      = .ok ⟨7, U32 - 1, ErrorKind.InvalidFormat.code, 1⟩ kernOpenA ∧
    handleSyscall layout0 kern0 ⟨8, 5, 0, 0⟩
      = .ok ⟨8, U32 - 1, ErrorKind.NotFound.code, 0⟩ kern0 ∧
    handleSyscall layout0 kernRng ⟨9, 3, 0x01000000, 16⟩
      = .ok ⟨9, U32 - 1, ErrorKind.NotFound.code, 16⟩ kernRng ∧
    handleSyscall layout0 kernRng ⟨10, 3, 0x01000000, 4⟩
      = .ok ⟨10, U32 - 1, ErrorKind.NotFound.code, 4⟩ kernRng := by
  refine ⟨?_, ?_, ?_, ?_, ?_, ?_⟩
  · exact (syscall_error_encoding layout0 kernOOM ⟨11, 4096, 0, 0⟩).1
      0x1000 .OutOfMemory rfl rfl (by decide)
  · exact (syscall_error_encoding layout0 kernRng ⟨6, 0x01000000, 16, 0⟩).2.1
      (0x01000000, 16) .Io rfl (by decide) (by decide)
  · exact (syscall_error_encoding layout0 kernOpenA ⟨7, 0x01000000, 8, 1⟩).2.2.1
      .InvalidFormat kernOpenA rfl (by decide) rfl
  · exact (syscall_error_encoding layout0 kern0 ⟨8, 5, 0, 0⟩).2.2.2.1
      rfl (by decide) rfl
  · exact (syscall_error_encoding layout0 kernRng ⟨9, 3, 0x01000000, 16⟩).2.2.2.2.1
      .NotFound kernRng rfl (by decide) rfl
  · exact (syscall_error_encoding layout0 kernRng ⟨10, 3, 0x01000000, 4⟩).2.2.2.2.2
      .NotFound kernRng rfl (by decide) rfl

/-- Every ext2 block holds at least one sector (block sizes start at 1024
bytes). -/
theorem sectorsPerBlock_pos (d : Disk) : 0 < sectorsPerBlock d := by
  unfold sectorsPerBlock blockSize
  rw [Nat.shiftLeft_eq]
  have h1 : (1 : Nat) ≤ 2 ^ blockSizeRaw d := Nat.one_le_two_pow
  have : 512 ≤ 1024 * 2 ^ blockSizeRaw d := by nlinarith
  omega

/-- read_inode_sector succeeds on a regular-file inode whose requested
sector falls within the direct block pointers, returning the expected
sector of the resolved block. -/
theorem readInodeSector_ok (d : Disk) (n : Nat) (ino : InodeRec)
    (hino : inodeAt d n = .ok ino) (htype : ino.typeNum = 8)
    (hlen12 : ino.directBlockPointers.length = 12)
    (sectorNum : Nat) (hbound : sectorNum / sectorsPerBlock d < 12) :
    readInodeSector d n sectorNum = .ok (fun i =>
      readSectorByte d
        (ino.directBlockPointers.getD (sectorNum / sectorsPerBlock d) 0
          * sectorsPerBlock d + sectorNum % sectorsPerBlock d) i) := by
  unfold readInodeSector
  rw [hino]
  dsimp only
  rw [if_neg (by simp [htype]), if_neg (by simp [htype])]
  rcases hg : ino.directBlockPointers.get? (sectorNum / sectorsPerBlock d) with - | b
  · rw [List.get?_eq_none] at hg
    omega
  · have hb : ino.directBlockPointers.getD (sectorNum / sectorsPerBlock d) 0 = b := by
      have h2 : ino.directBlockPointers[sectorNum / sectorsPerBlock d]? = some b := by
        rw [← List.get?_eq_getElem?]
        exact hg
      rw [List.getD_eq_getElem?_getD, h2]
      rfl
    rw [hb]

/-- The copy loop of read_file_from_offset, run from a sector-aligned
position c with the prefix already accumulated, finishes with the whole
file. -/
theorem readFileLoop_correct (d : Disk) (n : Nat) (ino : InodeRec)
    (hino : inodeAt d n = .ok ino) (htype : ino.typeNum = 8)
    (hlen12 : ino.directBlockPointers.length = 12)
    (hdirect : (ino.fileSize + 511) / 512 ≤ 12 * sectorsPerBlock d) :
    ∀ fuel c, c ≤ ino.fileSize → (512 ∣ c ∨ c = ino.fileSize) →
    (ino.fileSize - c + 511) / 512 + 1 ≤ fuel →
    readFileLoop d n ino.fileSize fuel c (ino.fileSize - c) ((c + 511) / 512) c
        (fileBytes d ino c)
      = some (.ok (ino.fileSize, fileBytes d ino ino.fileSize)) := by
  intro fuel
  induction fuel with
  | zero => intro c _ _ hfuel; omega
  | succ fuel ih =>
    intro c hc hdvd hfuel
    rw [readFileLoop]
    by_cases hend : ino.fileSize ≤ c
    · have hceq : c = ino.fileSize := by omega
      rw [if_pos hend, hceq]
    · rw [if_neg hend]
      have hcdvd : 512 ∣ c := by
        rcases hdvd with h | h
        · exact h
        · omega
      obtain ⟨q, hq⟩ := hcdvd
      have hspb := sectorsPerBlock_pos d
      have hsec : (c + 511) / 512 = c / 512 := by omega
      have hbound : c / 512 / sectorsPerBlock d < 12 := by
        rw [Nat.div_lt_iff_lt_mul hspb]
        have h1 : c / 512 < (ino.fileSize + 511) / 512 := by omega
        omega
      rw [hsec, readInodeSector_ok d n ino hino htype hlen12 (c / 512) hbound]
      dsimp only
      have hacc : fileBytes d ino c
            ++ (List.range (min (ino.fileSize - c) 512)).map (fun i =>
              readSectorByte d
                (ino.directBlockPointers.getD (c / 512 / sectorsPerBlock d) 0
                  * sectorsPerBlock d + c / 512 % sectorsPerBlock d) i)
          = fileBytes d ino (c + min (ino.fileSize - c) 512) := by
        unfold fileBytes
        rw [List.range_add, List.map_append, List.map_map]
        congr 1
        apply List.map_congr_left
        intro i hi
        simp only [List.mem_range] at hi
        have hlt : i < 512 := by omega
        have hdiv : (c + i) / 512 = c / 512 := by omega
        have hmod : (c + i) % 512 = i := by omega
        simp only [Function.comp]
        rw [hdiv, hmod]
      rw [hacc]
      have hrec := ih (c + min (ino.fileSize - c) 512) (by omega)
        (by
          rcases Nat.lt_or_ge (ino.fileSize - c) 512 with h | h
          · right; omega
          · left
            have : min (ino.fileSize - c) 512 = 512 := by omega
            rw [this]
            exact ⟨q + 1, by omega⟩)
        (by omega)
      have harg1 : ino.fileSize - c - min (ino.fileSize - c) 512
          = ino.fileSize - (c + min (ino.fileSize - c) 512) := by omega
      have harg2 : c / 512 + 1 = (c + min (ino.fileSize - c) 512 + 511) / 512 := by
        omega
      rw [← harg1, ← harg2] at hrec
      exact hrec

/-- Claim C8: for every ext2 regular file of length L stored entirely in
direct block pointers and every buffer of length at least L,
read_file_from_offset(n, 0, buf) returns L and the first L bytes of buf are
a byte-exact copy of the file contents (the read length is clamped to
file_size - offset). -/
theorem read_file_from_offset_full (d : Disk) (n bufLen : Nat) (ino : InodeRec)
    (hino : inodeAt d n = .ok ino) (htype : ino.typeNum = 8)
    (hlen12 : ino.directBlockPointers.length = 12)
    (hdirect : (ino.fileSize + 511) / 512 ≤ 12 * sectorsPerBlock d)
    (hLu : ino.fileSize < U32) (hbuf : ino.fileSize ≤ bufLen) :
    readFileFromOffset d n 0 bufLen
      = some (.ok (ino.fileSize, fileBytes d ino ino.fileSize)) := by
  unfold readFileFromOffset
  rw [hino]
  have havail : (ino.fileSize + U64 - 0 % U64) % U64 = ino.fileSize := by
    have hu : ino.fileSize < U64 := by
      have : U32 < U64 := by norm_num [U32, U64]
      omega
    simp [Nat.add_mod_right, Nat.mod_eq_of_lt hu]
  simp only [havail]
  have hbuf' : (if ino.fileSize < bufLen then ino.fileSize % U32 else bufLen)
      = ino.fileSize := by
    split
    · exact Nat.mod_eq_of_lt hLu
    · omega
  rw [hbuf']
  have h0 := readFileLoop_correct d n ino hino htype hlen12 hdirect
    (ino.fileSize / 512 + 12 * sectorsPerBlock d + 3) 0 (by omega) (Or.inl ⟨0, rfl⟩)
    (by omega)
  simpa [fileBytes] using h0

/-- Witness for read_file_from_offset_full on the concrete 2-byte file. -/
theorem read_file_from_offset_full_witness :
    readFileFromOffset diskFile 1 0 2
      = some (.ok (inoFile.fileSize, fileBytes diskFile inoFile inoFile.fileSize)) :=
  read_file_from_offset_full diskFile 1 2 inoFile (by decide) (by decide) (by decide)
    (by decide) (by decide) (by decide)

/-- Table well-formedness only inspects the root row, so it transports along
agreement on that row. -/
theorem PTWF_congr (h h2 : PTHeap) (root c : Nat) (hr : ∀ j, h2 root j = h root j)
    (hWF : PTWF h root c) : PTWF h2 root c := by
  obtain ⟨h1, hrow⟩ := hWF
  refine ⟨h1, fun j hj => ?_⟩
  rw [hr] at hj
  obtain ⟨ha, hb, hc⟩ := hrow j hj
  refine ⟨by rw [hr]; exact ha, by rw [hr]; exact hb, fun j2 hne hv => ?_⟩
  rw [hr] at hv
  rw [hr, hr]
  exact hc j2 hne hv

/-- Table well-formedness is monotone in the cursor. -/
theorem PTWF_mono (h : PTHeap) (root c c2 : Nat) (hc : c ≤ c2)
    (hWF : PTWF h root c) : PTWF h root c2 := by
  obtain ⟨h1, hrow⟩ := hWF
  exact ⟨by omega, fun j hj =>
    ⟨by have := (hrow j hj).1; omega, (hrow j hj).2.1, (hrow j hj).2.2⟩⟩

/-- When the freed list has no exact-size node, the byte count cannot
overflow, and the bumped cursor stays within the pool, alloc_pages returns
the old cursor and advances it. -/
theorem allocPages_succeeds (L : MemLayout) (s : PageAllocSt) (n : Nat)
    (hfreed : freedHasExact s.freed n = false)
    (hnw : PAGE_SIZE * n + L.freeRamEnd < U32)
    (hroom : s.cursor + PAGE_SIZE * n ≤ L.freeRamEnd) :
    allocPages L s n = .ok (s.cursor, ⟨s.cursor + PAGE_SIZE * n, s.freed⟩) := by
  unfold allocPages
  rw [if_neg (by simp [hfreed]), if_neg (by omega),
    Nat.mod_eq_of_lt (by omega : s.cursor + PAGE_SIZE * n < U32),
    if_neg (by omega)]

/-- Distinct page-aligned 32-bit addresses have distinct Sv32 vpn pairs. -/
theorem vpnPair_injective (v w : Nat) (hv : v % PAGE_SIZE = 0) (hw : w % PAGE_SIZE = 0)
    (hvU : v < U32) (hwU : w < U32) (hne : v ≠ w) :
    vpn1Of v ≠ vpn1Of w ∨ vpn0Of v ≠ vpn0Of w := by
  by_contra hc
  push_neg at hc
  obtain ⟨h1, h0⟩ := hc
  unfold vpn1Of at h1
  unfold vpn0Of at h0
  rw [Nat.shiftRight_eq_div_pow] at h1 h0
  have hmask : (0x3ff : Nat) = 2 ^ 10 - 1 := by norm_num
  rw [hmask, Nat.and_pow_two_sub_one_eq_mod, Nat.and_pow_two_sub_one_eq_mod] at h1 h0
  have hp : PAGE_SIZE = 4096 := rfl
  have hU : U32 = 4294967296 := by norm_num [U32]
  rw [hp] at hv hw
  rw [hU] at hvU hwU
  norm_num at h1 h0
  omega

/-- One step of the map loop: under the table invariant, with room for one
fresh intermediate table and an unmapped leaf, map_page succeeds; the
invariant is re-established, the new leaf walks to the written entry, and
every virtual address with a different vpn pair keeps both its unmapped-leaf
status and its walk result. -/
theorem mapPage_step (L : MemLayout) (a : PageAllocSt) (h : PTHeap)
    (root va pa flags : Nat)
    (hva : va % PAGE_SIZE = 0) (hpa : pa % PAGE_SIZE = 0)
    (hpaLt : pa < U32) (hf : flags < 32)
    (hG : GoodAlloc L a) (hEnd : PAGE_SIZE + L.freeRamEnd < U32)
    (hroom : a.cursor + PAGE_SIZE ≤ L.freeRamEnd)
    (hfreed : freedHasExact a.freed 1 = false)
    (hWF : PTWF h root a.cursor)
    (hLeaf : leafInvalid h root va) :
    ∃ a2 h2, mapPage L a h root va pa flags = .ok (a2, h2) ∧
      GoodAlloc L a2 ∧ a2.freed = a.freed ∧
      a.cursor ≤ a2.cursor ∧ a2.cursor ≤ a.cursor + PAGE_SIZE ∧
      PTWF h2 root a2.cursor ∧
      (∃ e, entryForVaddr h2 (some root) va = .entry e ∧
        entryPhysicalAddr e = pa ∧ entryFlags e = flags ||| FLAG_VALID) ∧
      (∀ w, vpn1Of w ≠ vpn1Of va ∨ vpn0Of w ≠ vpn0Of va →
        (leafInvalid h root w → leafInvalid h2 root w) ∧
        (∀ e, entryForVaddr h (some root) w = .entry e →
          entryForVaddr h2 (some root) w = .entry e)) := by
  have hflagsE : entryFlags (fromAddrFlags pa (flags ||| FLAG_VALID))
      = flags ||| FLAG_VALID := by
    rw [entryFlags_fromAddrFlags, flags_land_mask_self _ (lor_valid_lt_32 flags hf)]
  have hpaE : entryPhysicalAddr (fromAddrFlags pa (flags ||| FLAG_VALID)) = pa :=
    entryPhysicalAddr_fromAddrFlags _ _ hpaLt hpa
  by_cases hv1 : bitsContains (entryFlags (h root (vpn1Of va))) FLAG_VALID = true
  · obtain ⟨hTlt, hTroot, hTinj⟩ := hWF.2 (vpn1Of va) hv1
    have hLf := hLeaf hv1
    have hmp : mapPage L a h root va pa flags
        = .ok (a, h.write (entryPhysicalAddr (h root (vpn1Of va))) (vpn0Of va)
            (fromAddrFlags pa (flags ||| FLAG_VALID))) := by
      unfold mapPage
      rw [if_neg (by simp [hpa]), if_neg (by simp [hva]), if_neg (by simp [hv1])]
      unfold mapPageLeaf
      rw [if_neg (by simp [hLf])]
    have hrow : ∀ j2, (h.write (entryPhysicalAddr (h root (vpn1Of va))) (vpn0Of va)
        (fromAddrFlags pa (flags ||| FLAG_VALID))) root j2 = h root j2 :=
      fun j2 => PTHeap.write_ne_base _ _ _ _ _ _ (Ne.symm hTroot)
    refine ⟨a, _, hmp, hG, rfl, Nat.le_refl _, Nat.le_add_right _ _,
      PTWF_congr h _ root a.cursor hrow hWF, ?_, ?_⟩
    · refine ⟨fromAddrFlags pa (flags ||| FLAG_VALID), ?_, hpaE, hflagsE⟩
      simp only [entryForVaddr]
      rw [hrow, if_neg (by simp [hv1]), if_neg (by simp [bitsContainsAny_rwxu]),
        PTHeap.write_self]
    · intro w hw
      constructor
      · intro hLw hv2w
        rw [hrow] at hv2w
        rw [hrow]
        by_cases h1w : vpn1Of w = vpn1Of va
        · have h0w : vpn0Of w ≠ vpn0Of va := by
            rcases hw with hx | hx
            · exact absurd h1w hx
            · exact hx
          have hres := hLw hv2w
          rw [h1w] at hres
          rw [h1w, PTHeap.write_ne_idx _ _ _ _ _ _ h0w]
          exact hres
        · have hTw := hTinj (vpn1Of w) h1w hv2w
          rw [PTHeap.write_ne_base _ _ _ _ _ _ hTw]
          exact hLw hv2w
      · intro e he
        simp only [entryForVaddr] at he ⊢
        by_cases hv1w : bitsContains (entryFlags (h root (vpn1Of w))) FLAG_VALID = true
        · rw [if_neg (by simp [hv1w]), if_neg (by simp [bitsContainsAny_rwxu])] at he
          rw [hrow, if_neg (by simp [hv1w]), if_neg (by simp [bitsContainsAny_rwxu])]
          by_cases h1w : vpn1Of w = vpn1Of va
          · have h0w : vpn0Of w ≠ vpn0Of va := by
              rcases hw with hx | hx
              · exact absurd h1w hx
              · exact hx
            rw [h1w] at he ⊢
            rw [PTHeap.write_ne_idx _ _ _ _ _ _ h0w]
            exact he
          · have hTw := hTinj (vpn1Of w) h1w hv1w
            rw [PTHeap.write_ne_base _ _ _ _ _ _ hTw]
            exact he
        · rw [if_pos (by simp [hv1w])] at he
          simp at he
  · have hrne : root ≠ a.cursor := by have := hWF.1; omega
    have hnpAl : a.cursor % PAGE_SIZE = 0 := Nat.mod_eq_zero_of_dvd hG.1
    have hnpLt : a.cursor < U32 := by have := hG.2.2; omega
    have hPpos : 0 < PAGE_SIZE := by norm_num [PAGE_SIZE]
    have hA : allocPages L a 1 = .ok (a.cursor, ⟨a.cursor + PAGE_SIZE * 1, a.freed⟩) :=
      allocPages_succeeds L a 1 hfreed (by omega) (by omega)
    rw [Nat.mul_one] at hA
    have he1 : ((h.write root (vpn1Of va) (fromAddrFlags a.cursor FLAG_VALID)).zeroTable
        a.cursor) root (vpn1Of va) = fromAddrFlags a.cursor FLAG_VALID := by
      rw [PTHeap.zeroTable_ne _ _ _ _ hrne, PTHeap.write_self]
    have hpe1 : entryPhysicalAddr (fromAddrFlags a.cursor FLAG_VALID) = a.cursor :=
      entryPhysicalAddr_fromAddrFlags _ _ hnpLt hnpAl
    have hfe1 : entryFlags (fromAddrFlags a.cursor FLAG_VALID) = FLAG_VALID := by
      rw [entryFlags_fromAddrFlags, flags_land_mask_self _ (by norm_num [FLAG_VALID])]
    have hmp : mapPage L a h root va pa flags
        = .ok (⟨a.cursor + PAGE_SIZE, a.freed⟩,
            ((h.write root (vpn1Of va) (fromAddrFlags a.cursor FLAG_VALID)).zeroTable
              a.cursor).write a.cursor (vpn0Of va)
              (fromAddrFlags pa (flags ||| FLAG_VALID))) := by
      unfold mapPage
      rw [if_neg (by simp [hpa]), if_neg (by simp [hva]), if_pos (by simp [hv1]), hA]
      simp only
      unfold mapPageLeaf
      rw [he1, hpe1]
      rw [if_neg (by rw [PTHeap.zeroTable_self]; decide)]
    have hrow : ∀ j2, (((h.write root (vpn1Of va) (fromAddrFlags a.cursor
        FLAG_VALID)).zeroTable a.cursor).write a.cursor (vpn0Of va)
        (fromAddrFlags pa (flags ||| FLAG_VALID))) root j2
        = if j2 = vpn1Of va then fromAddrFlags a.cursor FLAG_VALID else h root j2 := by
      intro j2
      by_cases hj2 : j2 = vpn1Of va
      · subst hj2
        rw [if_pos rfl, PTHeap.write_ne_base _ _ _ _ _ _ hrne, he1]
      · rw [if_neg hj2, PTHeap.write_ne_base _ _ _ _ _ _ hrne,
          PTHeap.zeroTable_ne _ _ _ _ hrne, PTHeap.write_ne_idx _ _ _ _ _ _ hj2]
    refine ⟨⟨a.cursor + PAGE_SIZE, a.freed⟩, _, hmp,
      ⟨Nat.dvd_add hG.1 dvd_rfl,
        by show L.freeRam ≤ a.cursor + PAGE_SIZE; have := hG.2.1; omega, hroom⟩, rfl,
      Nat.le_add_right _ _, Nat.le_refl _, ?_, ?_, ?_⟩
    · have hc2 : ({ cursor := a.cursor + PAGE_SIZE, freed := a.freed } : PageAllocSt).cursor
          = a.cursor + PAGE_SIZE := rfl
      refine ⟨by have := hWF.1; omega, fun j hj => ?_⟩
      have hrwj := hrow j
      rw [hrwj] at hj
      by_cases hj' : j = vpn1Of va
      · rw [if_pos hj'] at hj
        rw [hrwj, if_pos hj', hpe1]
        refine ⟨by omega, Ne.symm hrne, fun j2 hne2 hv2 => ?_⟩
        have hrwj2 := hrow j2
        rw [hrwj2] at hv2 ⊢
        rw [if_neg (by rw [hj'] at hne2; exact hne2)] at hv2 ⊢
        have := (hWF.2 j2 hv2).1
        omega
      · rw [if_neg hj'] at hj
        obtain ⟨hl, hr, hinj⟩ := hWF.2 j hj
        rw [hrwj, if_neg hj']
        refine ⟨by omega, hr, fun j2 hne2 hv2 => ?_⟩
        have hrwj2 := hrow j2
        rw [hrwj2] at hv2 ⊢
        by_cases hj2' : j2 = vpn1Of va
        · rw [if_pos hj2'] at hv2 ⊢
          rw [hpe1]
          omega
        · rw [if_neg hj2'] at hv2 ⊢
          exact hinj j2 hne2 hv2
    · refine ⟨fromAddrFlags pa (flags ||| FLAG_VALID), ?_, hpaE, hflagsE⟩
      simp only [entryForVaddr]
      have hrw := hrow (vpn1Of va)
      rw [if_pos rfl] at hrw
      rw [hrw, if_neg (by rw [hfe1]; decide), if_neg (by simp [bitsContainsAny_rwxu]),
        hpe1, PTHeap.write_self]
    · intro w hw
      constructor
      · intro hLw hv2w
        have hrw := hrow (vpn1Of w)
        rw [hrw] at hv2w
        rw [hrw]
        by_cases h1w : vpn1Of w = vpn1Of va
        · have h0w : vpn0Of w ≠ vpn0Of va := by
            rcases hw with hx | hx
            · exact absurd h1w hx
            · exact hx
          rw [if_pos h1w, hpe1, PTHeap.write_ne_idx _ _ _ _ _ _ h0w,
            PTHeap.zeroTable_self]
          decide
        · rw [if_neg h1w] at hv2w
          have hTw := hWF.2 (vpn1Of w) hv2w
          rw [if_neg h1w]
          have hTne : entryPhysicalAddr (h root (vpn1Of w)) ≠ a.cursor := by
            have := hTw.1; omega
          rw [PTHeap.write_ne_base _ _ _ _ _ _ hTne,
            PTHeap.zeroTable_ne _ _ _ _ hTne,
            PTHeap.write_ne_base _ _ _ _ _ _ hTw.2.1]
          exact hLw hv2w
      · intro e he
        simp only [entryForVaddr] at he ⊢
        by_cases hv1w : bitsContains (entryFlags (h root (vpn1Of w))) FLAG_VALID = true
        · by_cases h1w : vpn1Of w = vpn1Of va
          · rw [h1w] at hv1w
            exact absurd hv1w hv1
          · rw [if_neg (by simp [hv1w]), if_neg (by simp [bitsContainsAny_rwxu])] at he
            have hrw := hrow (vpn1Of w)
            rw [if_neg h1w] at hrw
            rw [hrw, if_neg (by simp [hv1w]), if_neg (by simp [bitsContainsAny_rwxu])]
            have hTw := hWF.2 (vpn1Of w) hv1w
            have hTne : entryPhysicalAddr (h root (vpn1Of w)) ≠ a.cursor := by
              have := hTw.1; omega
            rw [PTHeap.write_ne_base _ _ _ _ _ _ hTne,
              PTHeap.zeroTable_ne _ _ _ _ hTne,
              PTHeap.write_ne_base _ _ _ _ _ _ hTw.2.1]
            exact he
        · rw [if_pos (by simp [hv1w])] at he
          simp at he

/-- The whole per-page loop of syscall_mmap: mapping n fresh, page-aligned
user addresses starting at start onto n physical pages starting at p
succeeds, re-establishes the table invariant, makes every mapped address walk
to its entry, and leaves every vpn-distinct address untouched. -/
theorem mmapLoop_spec (L : MemLayout) (root flags : Nat) (hf : flags < 32)
    (hEnd : PAGE_SIZE + L.freeRamEnd < U32) :
    ∀ n a h p start,
    p % PAGE_SIZE = 0 → start % PAGE_SIZE = 0 →
    p + PAGE_SIZE * n < U32 → start + PAGE_SIZE * n < U32 →
    GoodAlloc L a → a.cursor + PAGE_SIZE * n ≤ L.freeRamEnd →
    freedHasExact a.freed 1 = false →
    PTWF h root a.cursor →
    (∀ i, i < n → leafInvalid h root (start + PAGE_SIZE * i)) →
    ∃ a2 h2,
      mmapLoop L root flags a h
          ((List.range n).map fun i => (p + PAGE_SIZE * i, start + PAGE_SIZE * i))
        = (.ok (), a2, h2) ∧
      GoodAlloc L a2 ∧ a2.freed = a.freed ∧
      a.cursor ≤ a2.cursor ∧ a2.cursor ≤ a.cursor + PAGE_SIZE * n ∧
      PTWF h2 root a2.cursor ∧
      (∀ i, i < n → ∃ e,
        entryForVaddr h2 (some root) (start + PAGE_SIZE * i) = .entry e ∧
        entryPhysicalAddr e = p + PAGE_SIZE * i ∧
        entryFlags e = flags ||| FLAG_VALID) ∧
      (∀ w, (∀ i, i < n → vpn1Of w ≠ vpn1Of (start + PAGE_SIZE * i) ∨
          vpn0Of w ≠ vpn0Of (start + PAGE_SIZE * i)) →
        (leafInvalid h root w → leafInvalid h2 root w) ∧
        (∀ e, entryForVaddr h (some root) w = .entry e →
          entryForVaddr h2 (some root) w = .entry e)) := by
  intro n
  induction n with
  | zero =>
    intro a h p start hpa hsa hpU hsU hG hroom hfreed hWF hLeaf
    refine ⟨a, h, ?_, hG, rfl, Nat.le_refl _, by simp, hWF,
      fun i hi => absurd hi (by omega), fun w _ => ⟨id, fun e he => he⟩⟩
    rw [List.range_zero, List.map_nil]
    rfl
  | succ n ih =>
    intro a h p start hpa hsa hpU hsU hG hroom hfreed hWF hLeaf
    have hPpos : 0 < PAGE_SIZE := by norm_num [PAGE_SIZE]
    have hms : PAGE_SIZE * (n + 1) = PAGE_SIZE * n + PAGE_SIZE := Nat.mul_succ _ _
    rw [hms] at hpU hsU hroom
    have hlist : (List.range (n + 1)).map
          (fun i => (p + PAGE_SIZE * i, start + PAGE_SIZE * i))
        = (p, start) :: (List.range n).map (fun i =>
            (p + PAGE_SIZE + PAGE_SIZE * i, start + PAGE_SIZE + PAGE_SIZE * i)) := by
      rw [List.range_succ_eq_map, List.map_cons, List.map_map]
      refine congrArg₂ List.cons (by norm_num) (List.map_congr_left ?_)
      intro i _
      simp only [Function.comp, Nat.mul_succ, Prod.mk.injEq]
      constructor <;> ring
    have hLeaf0 : leafInvalid h root start := by
      have := hLeaf 0 (by omega)
      rwa [Nat.mul_zero, Nat.add_zero] at this
    have hsU0 : start < U32 := by omega
    have hsUi : ∀ i, i ≤ n + 1 → start + PAGE_SIZE * i < U32 := by
      intro i hi
      have : PAGE_SIZE * i ≤ PAGE_SIZE * (n + 1) :=
        Nat.mul_le_mul_left _ hi
      rw [hms] at this
      omega
    have hali : ∀ b : Nat, b % PAGE_SIZE = 0 → ∀ i : Nat,
        (b + PAGE_SIZE * i) % PAGE_SIZE = 0 := by
      intro b hb i
      exact Nat.mod_eq_zero_of_dvd
        (Nat.dvd_add (Nat.dvd_of_mod_eq_zero hb) (dvd_mul_right _ _))
    obtain ⟨a1, h1, hstep, hG1, hfr1, hc1l, hc1r, hWF1, ⟨e0, he0, hpe0, hfe0⟩, hpres⟩ :=
      mapPage_step L a h root start p flags hsa hpa (by omega) hf hG hEnd
        (by omega) hfreed hWF hLeaf0
    have haddrS : ∀ i : Nat, start + PAGE_SIZE + PAGE_SIZE * i
        = start + PAGE_SIZE * (i + 1) := by
      intro i
      rw [Nat.mul_succ]
      ring
    have haddrP : ∀ i : Nat, p + PAGE_SIZE + PAGE_SIZE * i = p + PAGE_SIZE * (i + 1) := by
      intro i
      rw [Nat.mul_succ]
      ring
    have hdisj : ∀ i, i < n → vpn1Of (start + PAGE_SIZE * (i + 1)) ≠ vpn1Of start ∨
        vpn0Of (start + PAGE_SIZE * (i + 1)) ≠ vpn0Of start := by
      intro i hi
      refine vpnPair_injective _ _ (hali start hsa (i + 1)) (by
        have := hali start hsa 0
        rwa [Nat.mul_zero, Nat.add_zero] at this) (hsUi (i + 1) (by omega)) hsU0 ?_
      have : 0 < PAGE_SIZE * (i + 1) := Nat.mul_pos hPpos (by omega)
      omega
    have hLeaf1 : ∀ i, i < n →
        leafInvalid h1 root (start + PAGE_SIZE + PAGE_SIZE * i) := by
      intro i hi
      rw [haddrS i]
      exact (hpres _ (hdisj i hi)).1 (hLeaf (i + 1) (by omega))
    obtain ⟨a2, h2, hloop, hG2, hfr2, hc2l, hc2r, hWF2, hmaps, hpres2⟩ :=
      ih a1 h1 (p + PAGE_SIZE) (start + PAGE_SIZE)
        (Nat.mod_eq_zero_of_dvd (Nat.dvd_add (Nat.dvd_of_mod_eq_zero hpa) dvd_rfl))
        (Nat.mod_eq_zero_of_dvd (Nat.dvd_add (Nat.dvd_of_mod_eq_zero hsa) dvd_rfl))
        (by omega) (by omega) hG1 (by omega) (by rw [hfr1]; exact hfreed) hWF1 hLeaf1
    have hloopEq : mmapLoop L root flags a h ((List.range (n + 1)).map
          (fun i => (p + PAGE_SIZE * i, start + PAGE_SIZE * i)))
        = (.ok (), a2, h2) := by
      rw [hlist]
      show (match mapPage L a h root start p flags with
        | .ok (a', h') => mmapLoop L root flags a' h' ((List.range n).map (fun i =>
            (p + PAGE_SIZE + PAGE_SIZE * i, start + PAGE_SIZE + PAGE_SIZE * i)))
        | .err e => (.err e, a, h)
        | .panicked => (.panicked, a, h)) = (.ok (), a2, h2)
      rw [hstep]
      exact hloop
    have hwdist : ∀ i, i < n + 1 → ∀ j, j < n + 1 → i ≠ j →
        vpn1Of (start + PAGE_SIZE * i) ≠ vpn1Of (start + PAGE_SIZE * j) ∨
        vpn0Of (start + PAGE_SIZE * i) ≠ vpn0Of (start + PAGE_SIZE * j) := by
      intro i hi j hj hij
      refine vpnPair_injective _ _ (hali start hsa i) (hali start hsa j)
        (hsUi i (by omega)) (hsUi j (by omega)) ?_
      intro hcontra
      rcases Nat.lt_or_ge i j with hlt | hge
      · have : PAGE_SIZE * i < PAGE_SIZE * j := by
          exact (Nat.mul_lt_mul_left hPpos).mpr hlt
        omega
      · have hjlt : j < i := by omega
        have : PAGE_SIZE * j < PAGE_SIZE * i := by
          exact (Nat.mul_lt_mul_left hPpos).mpr hjlt
        omega
    refine ⟨a2, h2, hloopEq, hG2, by rw [hfr2, hfr1], by omega, by omega, hWF2,
      ?_, ?_⟩
    · intro i hi
      rcases i with - | j
      · have hw0 : ∀ i, i < n → vpn1Of start ≠ vpn1Of (start + PAGE_SIZE + PAGE_SIZE * i)
            ∨ vpn0Of start ≠ vpn0Of (start + PAGE_SIZE + PAGE_SIZE * i) := by
          intro i hi2
          rw [haddrS i]
          rcases hdisj i hi2 with hx | hx
          · exact Or.inl (Ne.symm hx)
          · exact Or.inr (Ne.symm hx)
        refine ⟨e0, ?_, ?_, hfe0⟩
        · rw [Nat.mul_zero, Nat.add_zero]
          exact (hpres2 start hw0).2 e0 he0
        · rw [Nat.mul_zero, Nat.add_zero]
          exact hpe0
      · obtain ⟨e, hwalk, hpe, hfe⟩ := hmaps j (by omega)
        rw [haddrS j] at hwalk
        rw [haddrP j] at hpe
        exact ⟨e, hwalk, hpe, hfe⟩
    · intro w hwd
      have hwd0 : vpn1Of w ≠ vpn1Of start ∨ vpn0Of w ≠ vpn0Of start := by
        have := hwd 0 (by omega)
        rwa [Nat.mul_zero, Nat.add_zero] at this
      have hwdt : ∀ i, i < n →
          vpn1Of w ≠ vpn1Of (start + PAGE_SIZE + PAGE_SIZE * i) ∨
          vpn0Of w ≠ vpn0Of (start + PAGE_SIZE + PAGE_SIZE * i) := by
        intro i hi
        rw [haddrS i]
        exact hwd (i + 1) (by omega)
      exact ⟨fun hLw => (hpres2 w hwdt).1 ((hpres w hwd0).1 hLw),
        fun e he => (hpres2 w hwdt).2 e ((hpres w hwd0).2 e he)⟩

/-- Bookkeeping of any successful mmap, whatever the loop did: the returned
value is the old mmap head and the head advances by one page more than the
rounded request. -/
theorem syscallMmap_ok_shape (L : MemLayout) (k : Kern) (s v : Nat) (k2 : Kern)
    (h : syscallMmap L k s = (.ok v, k2)) :
    v = k.mmapHead ∧
    k2.mmapHead = k.mmapHead + PAGE_SIZE * ((s + PAGE_SIZE - 1) / PAGE_SIZE + 1) := by
  unfold syscallMmap at h
  split at h
  · simp at h
  · simp only at h
    split at h
    · simp at h
    · simp at h
    · split at h
      · simp only [Prod.mk.injEq] at h
        obtain ⟨h1, h2⟩ := h
        simp only [SRes.ok.injEq] at h1
        exact ⟨h1.symm, by rw [← h2]⟩
      · simp at h
      · simp at h

/-- Claim C7: for every Mmap request of size s on a well-formed kernel state
(active root table satisfying the table invariant, enough pool room for the
pages and their intermediate tables, fresh unmapped head region), the kernel
rounds s up to n whole pages, returns the old mmap_head, advances mmap_head
by (n + 1) * 4096, and afterwards every one of the n pages at the old head
walks to an entry with flags R|W|X|U|Valid whose physical page was zeroed;
consequently two consecutive successful Mmap(4096) calls return v1 and v2
with v2 - v1 = 2 * 4096. -/
theorem syscall_mmap_spec (L : MemLayout) (k : Kern) (s root n : Nat)
    (hn : n = (s + PAGE_SIZE - 1) / PAGE_SIZE)
    (hroot : k.rootTable = some root)
    (hG : GoodAlloc L k.alloc)
    (hEnd : PAGE_SIZE + L.freeRamEnd < U32)
    (hnw : PAGE_SIZE * n + L.freeRamEnd < U32)
    (hroom : k.alloc.cursor + PAGE_SIZE * n + PAGE_SIZE * n ≤ L.freeRamEnd)
    (hfreedn : freedHasExact k.alloc.freed n = false)
    (hfreed1 : freedHasExact k.alloc.freed 1 = false)
    (hWF : PTWF k.heap root k.alloc.cursor)
    (hsa : k.mmapHead % PAGE_SIZE = 0)
    (hsU : k.mmapHead + PAGE_SIZE * n < U32)
    (hLeaf : ∀ i, i < n → leafInvalid k.heap root (k.mmapHead + PAGE_SIZE * i)) :
    (∃ k1, syscallMmap L k s = (.ok k.mmapHead, k1) ∧
      k1.mmapHead = k.mmapHead + PAGE_SIZE * (n + 1) ∧
      ∀ i, i < n → ∃ e,
        entryForVaddr k1.heap (some root) (k.mmapHead + PAGE_SIZE * i) = .entry e ∧
        entryFlags e = FLAG_RWXU ||| FLAG_VALID ∧
        ∀ j, j < PAGE_SIZE → k1.ram (entryPhysicalAddr e + j) = 0) ∧
    (∀ v1 v2 k1 k2, syscallMmap L k 4096 = (.ok v1, k1) →
      syscallMmap L k1 4096 = (.ok v2, k2) → v2 - v1 = 2 * 4096) := by
  constructor
  · have hPpos : 0 < PAGE_SIZE := by norm_num [PAGE_SIZE]
    have halloc : allocPages L k.alloc n
        = .ok (k.alloc.cursor, ⟨k.alloc.cursor + PAGE_SIZE * n, k.alloc.freed⟩) :=
      allocPages_succeeds L k.alloc n hfreedn hnw (by omega)
    have hfRWXU : FLAG_RWXU < 32 := by decide
    obtain ⟨a2, h2, hloop, hG2, hfr2, hc2l, hc2r, hWF2, hmaps, -⟩ :=
      mmapLoop_spec L root FLAG_RWXU hfRWXU hEnd n
        ⟨k.alloc.cursor + PAGE_SIZE * n, k.alloc.freed⟩ k.heap k.alloc.cursor k.mmapHead
        (Nat.mod_eq_zero_of_dvd hG.1) hsa (by have := hG.2.2; omega) hsU
        ⟨Nat.dvd_add hG.1 (dvd_mul_right _ _),
          le_trans hG.2.1 (Nat.le_add_right _ _),
          by show k.alloc.cursor + PAGE_SIZE * n ≤ L.freeRamEnd; omega⟩
        (by show k.alloc.cursor + PAGE_SIZE * n + PAGE_SIZE * n ≤ L.freeRamEnd
            exact hroom)
        hfreed1
        (PTWF_mono _ _ _ _
          (by show k.alloc.cursor ≤ k.alloc.cursor + PAGE_SIZE * n; omega) hWF)
        hLeaf
    refine ⟨{ k with
        alloc := a2
        heap := h2
        ram := fun x => if k.alloc.cursor ≤ x ∧ x < k.alloc.cursor + n * PAGE_SIZE
          then 0 else k.ram x
        mmapHead := k.mmapHead + PAGE_SIZE * (n + 1) }, ?_, rfl, ?_⟩
    · unfold syscallMmap
      rw [hroot]
      simp only
      rw [← hn, halloc]
      simp only
      rw [hloop]
    · intro i hi
      obtain ⟨e, hwalk, hpe, hfe⟩ := hmaps i hi
      refine ⟨e, hwalk, hfe, ?_⟩
      intro j hj
      show (if k.alloc.cursor ≤ entryPhysicalAddr e + j ∧
          entryPhysicalAddr e + j < k.alloc.cursor + n * PAGE_SIZE then 0
        else k.ram (entryPhysicalAddr e + j)) = 0
      rw [hpe]
      have hle : PAGE_SIZE * (i + 1) ≤ PAGE_SIZE * n := Nat.mul_le_mul_left _ hi
      have hsucc : PAGE_SIZE * (i + 1) = PAGE_SIZE * i + PAGE_SIZE := Nat.mul_succ _ _
      have hcomm : PAGE_SIZE * n = n * PAGE_SIZE := Nat.mul_comm _ _
      rw [if_pos ⟨by omega, by omega⟩]
  · intro v1 v2 k1 k2 hm1 hm2
    obtain ⟨hv1, hh1⟩ := syscallMmap_ok_shape L k 4096 v1 k1 hm1
    obtain ⟨hv2, hh2⟩ := syscallMmap_ok_shape L k1 4096 v2 k2 hm2
    have hq : (4096 + PAGE_SIZE - 1) / PAGE_SIZE + 1 = 2 := by norm_num [PAGE_SIZE]
    rw [hq] at hh1 hh2
    have hP : PAGE_SIZE = 4096 := rfl
    omega

/-- The page-table heap of the mmap scenario state is all-empty. -/
theorem kernMmap_heap_zero : ∀ b i, kernMmap.heap b i = 0 := fun _ _ => rfl

/-- Witness for syscall_mmap_spec: a one-page Mmap on the concrete state. -/
theorem syscall_mmap_spec_witness :
    (∃ k1, syscallMmap layout0 kernMmap 4096 = (.ok kernMmap.mmapHead, k1) ∧
      k1.mmapHead = kernMmap.mmapHead + PAGE_SIZE * (1 + 1) ∧
      ∀ i, i < 1 → ∃ e,
        entryForVaddr k1.heap (some 0x1000) (kernMmap.mmapHead + PAGE_SIZE * i)
          = .entry e ∧
        entryFlags e = FLAG_RWXU ||| FLAG_VALID ∧
        ∀ j, j < PAGE_SIZE → k1.ram (entryPhysicalAddr e + j) = 0) ∧
    (∀ v1 v2 k1 k2, syscallMmap layout0 kernMmap 4096 = (.ok v1, k1) →
      syscallMmap layout0 k1 4096 = (.ok v2, k2) → v2 - v1 = 2 * 4096) :=
  syscall_mmap_spec layout0 kernMmap 4096 0x1000 1 (by decide) rfl
    ⟨⟨0x80002, by decide⟩, by decide, by decide⟩ (by decide) (by decide) (by decide)
    (by decide) (by decide)
    ⟨by decide, fun j hj => absurd (by simpa only [kernMmap_heap_zero] using hj) (by decide : ¬ bitsContains (entryFlags 0) FLAG_VALID = true)⟩
    (by decide) (by decide)
    (fun i _ _ => by simp only [kernMmap_heap_zero]; decide)

end RustOS
